import Mathlib

/-!
Verification of the trip consistency engine of the google-timeline repository
(src/server.ts together with the table definitions in src/schema.sql).

The embedding models the database tables touched by the trip endpoints as lists
of rows, in table order, and each SQL statement by its logical effect on those
lists (an UPDATE or DELETE is one simultaneous set-based step; a SELECT without
ORDER BY reads rows in table order).  The route provider (Mapbox Directions) is
a pure function parameter producing a response for a pair of coordinates.
-/

namespace GoogleTimeline

/-- A timeline_entries row, restricted to the columns the trip engine reads:
the id and the point coordinates. -/
structure Entry where
  id : Nat
  lng : Int
  lat : Int
deriving Repr, DecidableEq

/-- A route returned by the directions provider.  The geometry polyline is kept
abstract as a numeric tag; distance and duration are carried verbatim. -/
structure Route where
  geomTag : Nat
  distance : Int
  duration : Int
deriving Repr, DecidableEq

/-- A trip_stops row (src/schema.sql lines 172-192). -/
structure Stop where
  id : Nat
  trip_id : Nat
  position : Int
  timeline_entry_id : Option Nat
  waypoint_location : Option (Int × Int)
  waypoint_name : Option String
deriving Repr, DecidableEq

/-- A trip_route_segments row (src/schema.sql lines 198-210); the surrogate id,
profile and fetched_at columns are omitted since no endpoint reads them. -/
structure Segment where
  trip_id : Nat
  from_stop_id : Nat
  to_stop_id : Nat
  route_geometry : Nat
  distance_meters : Int
  duration_seconds : Int
deriving Repr, DecidableEq

/-- Database state: the serial counter for stop ids plus the three tables the
trip endpoints touch. -/
structure DB where
  nextStopId : Nat
  timeline_entries : List Entry
  trip_stops : List Stop
  trip_route_segments : List Segment
deriving Repr, DecidableEq

/-- Rows of trip_stops belonging to one trip, in table order
(SELECT ... WHERE trip_id = t). -/
def tripRows (t : Nat) (stops : List Stop) : List Stop :=
  stops.filter (fun s => s.trip_id == t)

/-- SELECT COALESCE(MAX(position), -1) FROM trip_stops WHERE trip_id = t
(src/server.ts lines 291-293). -/
def maxPosition (t : Nat) (db : DB) : Int :=
  ((tripRows t db.trip_stops).map Stop.position).foldr max (-1)

/-- The JSON body of POST /api/trips/:id/stops. -/
structure InsertBody where
  position : Option Int
  timeline_entry_id : Option Nat
  lat : Option Int
  lng : Option Int
  name : Option String
deriving Repr, DecidableEq

/-- JavaScript truthiness of body.timeline_entry_id (null and 0 are falsy),
the guard on src/server.ts line 305. -/
def hasTimelineRef (b : InsertBody) : Bool :=
  match b.timeline_entry_id with
  | some n => n != 0
  | none => false

/-- body.lat != null && body.lng != null, the guard on src/server.ts line 311. -/
def hasLatLng (b : InsertBody) : Bool :=
  b.lat.isSome && b.lng.isSome

/-- Either location source is present, i.e. the insert will not answer 400. -/
def hasSource (b : InsertBody) : Bool :=
  hasTimelineRef b || hasLatLng b

/-- body.name || null on src/server.ts line 317: the empty string is falsy. -/
def waypointNameOf (b : InsertBody) : Option String :=
  match b.name with
  | some s => if s == "" then none else some s
  | none => none

/-- The effect on one row of UPDATE trip_stops SET position = position + 1
WHERE trip_id = t AND position >= p. -/
def shiftRow (t : Nat) (p : Int) (s : Stop) : Stop :=
  if s.trip_id == t && decide (p ≤ s.position) then
    { s with position := s.position + 1 }
  else s

/-- UPDATE trip_stops SET position = position + 1 WHERE trip_id = t AND
position >= p (src/server.ts lines 297-301). -/
def shiftForInsert (t : Nat) (p : Int) (stops : List Stop) : List Stop :=
  stops.map (shiftRow t p)

/-- The row the insert endpoint writes: a timeline-entry stop when the
reference is (JS-)truthy, a waypoint stop otherwise
(src/server.ts lines 305-320). -/
def newStopRow (t : Nat) (b : InsertBody) (id0 : Nat) (position : Int) : Stop :=
  if hasTimelineRef b then
    { id := id0, trip_id := t, position := position,
      timeline_entry_id := b.timeline_entry_id,
      waypoint_location := none, waypoint_name := none }
  else
    { id := id0, trip_id := t, position := position,
      timeline_entry_id := none,
      waypoint_location := some (b.lng.getD 0, b.lat.getD 0),
      waypoint_name := waypointNameOf b }

/-- DELETE FROM trip_route_segments WHERE trip_id = t AND (from_stop_id = sid
OR to_stop_id = sid) (src/server.ts lines 329-333). -/
def invalidateEndpoints (t sid : Nat) (segs : List Segment) : List Segment :=
  segs.filter (fun g =>
    !(g.trip_id == t && (g.from_stop_id == sid || g.to_stop_id == sid)))

/-- SELECT id FROM trip_stops WHERE trip_id = t AND position IN (p - 1, p + 1)
(src/server.ts lines 335-339): no ORDER BY, so rows come back in table order. -/
def neighborRows (t : Nat) (p : Int) (stops : List Stop) : List Stop :=
  stops.filter (fun s =>
    s.trip_id == t && (s.position == p - 1 || s.position == p + 1))

/-- The spanned-segment invalidation (src/server.ts lines 340-347): only when
the neighbour query returned exactly two rows, delete the segment from the
first returned row to the second. -/
def invalidateSpanned (t : Nat) (neighbors : List Stop) (segs : List Segment) :
    List Segment :=
  match neighbors with
  | [n0, n1] => segs.filter (fun g =>
      !(g.trip_id == t && g.from_stop_id == n0.id && g.to_stop_id == n1.id))
  | _ => segs

/-- POST /api/trips/:id/stops (src/server.ts lines 283-350).  Chooses the
position (append, or shift the tail up for an explicit position), validates the
location source, inserts the row, then invalidates cached segments touching the
new stop and the single segment spanning its position when exactly two
neighbouring rows are found.  Returns the created stop, or none for the 400
response.  Note that an explicit position shifts existing rows before the
source check runs, so the shift survives a 400 response. -/
def insertStop (t : Nat) (b : InsertBody) (db : DB) : Option Stop × DB :=
  let position : Int :=
    match b.position with
    | none => maxPosition t db + 1
    | some p => p
  let stops1 : List Stop :=
    match b.position with
    | none => db.trip_stops
    | some p => shiftForInsert t p db.trip_stops
  if hasSource b then
    let stop : Stop := newStopRow t b db.nextStopId position
    let stops2 := stops1 ++ [stop]
    let segs1 := invalidateEndpoints t stop.id db.trip_route_segments
    let segs2 := invalidateSpanned t (neighborRows t position stops2) segs1
    (some stop,
      { db with nextStopId := db.nextStopId + 1, trip_stops := stops2,
                trip_route_segments := segs2 })
  else
    (none, { db with trip_stops := stops1 })

/-- DELETE /api/trips/:id/stops/:stopId (src/server.ts lines 353-376).  Looks
the stop up inside the trip (404 when absent), deletes the row (segments
referencing it cascade via the foreign keys), then renumbers higher positions
of the trip down by one. -/
def deleteStop (t sid : Nat) (db : DB) : Bool × DB :=
  match db.trip_stops.find? (fun s => s.id == sid && s.trip_id == t) with
  | none => (false, db)
  | some s =>
      let stops1 := db.trip_stops.filter (fun x => !(x.id == sid))
      let segs1 := db.trip_route_segments.filter (fun g =>
        !(g.from_stop_id == sid || g.to_stop_id == sid))
      let stops2 := stops1.map (fun x =>
        if x.trip_id == t && decide (s.position < x.position) then
          { x with position := x.position - 1 }
        else x)
      (true, { db with trip_stops := stops2, trip_route_segments := segs1 })

/-- The JSON body of PUT /api/trips/:id/stops/reorder: either not an array
(rejected on src/server.ts line 383) or a list of stop ids. -/
inductive ReorderInput where
  | notArray
  | arr (order : List Nat)
deriving Repr, DecidableEq

/-- The effect on one row of UPDATE trip_stops SET position = v WHERE id = sid
AND trip_id = t. -/
def stepRow (t : Nat) (s : Stop) (step : Nat × Int) : Stop :=
  if s.id == step.1 && s.trip_id == t then { s with position := step.2 } else s

/-- One UPDATE trip_stops SET position = v WHERE id = sid AND trip_id = t
statement of the reorder handler. -/
def setStopPosition (t : Nat) (stops : List Stop) (step : Nat × Int) : List Stop :=
  stops.map (fun s => stepRow t s step)

/-- One pass of position assignments: the stop listed at index i (counting from
k) is assigned position v i. -/
def assignStepsFrom (v : Nat → Int) (k : Nat) (order : List Nat) : List (Nat × Int) :=
  (order.enumFrom k).map (fun e => (e.2, v e.1))

/-- The sequence of single-row updates the reorder handler issues: every listed
stop first to a negative staging position, then to its final index
(src/server.ts lines 390-403). -/
def stagingSteps (order : List Nat) : List (Nat × Int) :=
  (order.enum.map (fun e => (e.2, -((e.1 : Int) + 1)))) ++
  (order.enum.map (fun e => (e.2, (e.1 : Int))))

/-- PUT /api/trips/:id/stops/reorder (src/server.ts lines 378-407): 400 for a
non-array body with no effect; otherwise delete every cached segment of the
trip, then run the staged position updates. -/
def reorderStops (t : Nat) (inp : ReorderInput) (db : DB) : Bool × DB :=
  match inp with
  | .notArray => (false, db)
  | .arr order =>
      let segs := db.trip_route_segments.filter (fun g => !(g.trip_id == t))
      let stops := (stagingSteps order).foldl (setStopPosition t) db.trip_stops
      (true, { db with trip_stops := stops, trip_route_segments := segs })

/-- Every intermediate trip_stops state of the reorder handler, one entry per
executed UPDATE statement, starting state included. -/
def reorderStates (t : Nat) (order : List Nat) (stops : List Stop) : List (List Stop) :=
  (stagingSteps order).scanl (setStopPosition t) stops

/-- A Mapbox Directions response: status code and route list
(src/server.ts lines 18-28). -/
structure MapboxResponse where
  code : String
  routes : List Route
deriving Repr, DecidableEq

/-- The directions service as a pure function of the two coordinates read from
the loaded stop rows (a coordinate is none when the SQL expression was NULL). -/
abbrev Provider := Option Int → Option Int → Option Int → Option Int → MapboxResponse

/-- fetchRouteSegment (src/server.ts lines 30-53): call the provider and fail
unless the response code is Ok and a route is present; the error carries the
provider's status code and nothing else. -/
def fetchRouteSegment (provider : Provider)
    (fromLng fromLat toLng toLat : Option Int) : Except String Route :=
  let data := provider fromLng fromLat toLng toLat
  if data.code != "Ok" || data.routes.isEmpty then
    Except.error ("Mapbox Directions failed: " ++ data.code)
  else
    match data.routes with
    | [] => Except.error "No route returned from Mapbox Directions API"
    | r :: _ => Except.ok r

/-- The lng column computed by loadStopsWithCoords (src/server.ts lines 64-67):
the referenced timeline entry's coordinate when the reference is set (NULL when
the entry is missing), the waypoint coordinate otherwise. -/
def stopLng (db : DB) (s : Stop) : Option Int :=
  match s.timeline_entry_id with
  | some te => (db.timeline_entries.find? (fun e => e.id == te)).map Entry.lng
  | none => s.waypoint_location.map Prod.fst

/-- The lat column computed by loadStopsWithCoords (src/server.ts lines 68-71). -/
def stopLat (db : DB) (s : Stop) : Option Int :=
  match s.timeline_entry_id with
  | some te => (db.timeline_entries.find? (fun e => e.id == te)).map Entry.lat
  | none => s.waypoint_location.map Prod.snd

/-- Insert a stop into a list sorted by ascending position. -/
def insertByPosition (s : Stop) : List Stop → List Stop
  | [] => [s]
  | x :: xs =>
      if decide (s.position ≤ x.position) then s :: x :: xs
      else x :: insertByPosition s xs

/-- Sort a stop list by ascending position (insertion sort; ORDER BY leaves
the order of equal positions unspecified, and positions are unique per trip). -/
def sortByPosition : List Stop → List Stop
  | [] => []
  | x :: xs => insertByPosition x (sortByPosition xs)

/-- loadStopsWithCoords (src/server.ts lines 57-78): the trip's rows ordered by
position. -/
def loadStops (t : Nat) (db : DB) : List Stop :=
  sortByPosition (tripRows t db.trip_stops)

/-- Errors of the route generation endpoint. -/
inductive GenError where
  | validation (msg : String)
  | routeUnavailable (msg : String)
deriving Repr, DecidableEq

/-- Result of POST /api/trips/:id/routes: the database after the request, the
list of (from id, to id) pairs the provider was called on, and the error
surfaced to the caller, if any. -/
structure GenOut where
  db : DB
  calls : List (Nat × Nat)
  err : Option GenError
deriving Repr, DecidableEq

/-- SELECT id FROM trip_route_segments WHERE trip_id AND from_stop_id AND
to_stop_id (src/server.ts lines 435-440), as a cache-hit test. -/
def segmentCached (t fromId toId : Nat) (db : DB) : Bool :=
  db.trip_route_segments.any (fun g =>
    g.trip_id == t && g.from_stop_id == fromId && g.to_stop_id == toId)

/-- INSERT ... ON CONFLICT (trip_id, from_stop_id, to_stop_id) DO UPDATE
(src/server.ts lines 451-467). -/
def upsertSegment (g : Segment) (db : DB) : DB :=
  if segmentCached g.trip_id g.from_stop_id g.to_stop_id db then
    { db with trip_route_segments := db.trip_route_segments.map (fun h =>
        if h.trip_id == g.trip_id && h.from_stop_id == g.from_stop_id &&
            h.to_stop_id == g.to_stop_id then g else h) }
  else
    { db with trip_route_segments := db.trip_route_segments ++ [g] }

/-- The per-pair loop of POST /api/trips/:id/routes (src/server.ts lines
429-468): skip a cached pair unless force is set, call the provider otherwise,
abort the request on the first provider failure, upsert on success. -/
def genLoop (provider : Provider) (force : Bool) (t : Nat) :
    List (Stop × Stop) → DB → List (Nat × Nat) → GenOut
  | [], db, calls => ⟨db, calls, none⟩
  | (a, b) :: rest, db, calls =>
      if !force && segmentCached t a.id b.id db then
        genLoop provider force t rest db calls
      else
        match fetchRouteSegment provider (stopLng db a) (stopLat db a)
            (stopLng db b) (stopLat db b) with
        | .error msg => ⟨db, calls ++ [(a.id, b.id)], some (.routeUnavailable msg)⟩
        | .ok r =>
            genLoop provider force t rest
              (upsertSegment ⟨t, a.id, b.id, r.geomTag, r.distance, r.duration⟩ db)
              (calls ++ [(a.id, b.id)])

/-- The consecutive pairs of a position-ordered stop list. -/
def consecutivePairs (l : List Stop) : List (Stop × Stop) :=
  l.zip l.tail

/-- POST /api/trips/:id/routes (src/server.ts lines 410-474): require at least
two stops, clear the trip's cache when force is set, then walk the consecutive
pairs fetching every missing segment. -/
def generateRoutes (provider : Provider) (force : Bool) (t : Nat) (db : DB) : GenOut :=
  let stops := loadStops t db
  if stops.length < 2 then
    ⟨db, [], some (.validation "Need at least 2 stops to generate routes")⟩
  else
    let db1 :=
      if force then
        { db with trip_route_segments :=
            db.trip_route_segments.filter (fun g => !(g.trip_id == t)) }
      else db
    genLoop provider force t (consecutivePairs stops) db1 []

/-- The trip's stop ids read in position order: for each position of
0..count-1, the id of the trip's row at that position (skipping positions with
no row, which cannot happen when the contiguity invariant holds). -/
def idsInPositionOrder (t : Nat) (stops : List Stop) : List Nat :=
  (List.range (tripRows t stops).length).filterMap (fun (p : Nat) =>
    ((tripRows t stops).find? (fun s => s.position == (p : Int))).map Stop.id)

/-- A stop mutation against one trip: the insert endpoint's body, or the delete
endpoint's stop id. -/
inductive TripOp where
  | insert (b : InsertBody)
  | del (sid : Nat)
deriving Repr, DecidableEq

/-- Run one mutation endpoint, keeping the database it leaves behind. -/
def applyOp (t : Nat) (db : DB) (op : TripOp) : DB :=
  match op with
  | .insert b => (insertStop t b db).2
  | .del sid => (deleteStop t sid db).2

/-- Run a sequence of mutation endpoints. -/
def applyOps (t : Nat) (db : DB) (ops : List TripOp) : DB :=
  ops.foldl (applyOp t) db

/-- An insert request is well-formed when any explicit position is accompanied
by a location source and lies inside 0..count; delete requests are always
well-formed (a missing stop answers 404 with no effect). -/
def opValid (t : Nat) (db : DB) : TripOp → Bool
  | .del _ => true
  | .insert b =>
      match b.position with
      | none => true
      | some p =>
          hasSource b && decide (0 ≤ p) &&
            decide (p ≤ ((tripRows t db.trip_stops).length : Int))

/-- Every request of the sequence is well-formed in the state it runs against. -/
def opsValid (t : Nat) (db : DB) : List TripOp → Bool
  | [] => true
  | op :: rest => opValid t db op && opsValid t (applyOp t db op) rest

/-- The central Stop Store invariant for one trip: positions are pairwise
distinct and lie in 0..count-1. -/
def PosInv (t : Nat) (db : DB) : Prop :=
  ((tripRows t db.trip_stops).map Stop.position).Nodup ∧
  ∀ s ∈ tripRows t db.trip_stops,
    0 ≤ s.position ∧ s.position < ((tripRows t db.trip_stops).length : Int)

/-- Primary-key and serial-counter health of the trip_stops table: ids are
pairwise distinct and below the next serial value. -/
def IdInv (db : DB) : Prop :=
  (db.trip_stops.map Stop.id).Nodup ∧ ∀ s ∈ db.trip_stops, s.id < db.nextStopId

/-! ### Concrete fixtures used by witnesses and counterexamples -/

/-- A database with no rows and the serial counter at 1. -/
def emptyDB : DB := ⟨1, [], [], []⟩

/-- An insert body appending a waypoint stop at the given coordinate. -/
def waypointBody (lngv latv : Int) : InsertBody :=
  ⟨none, none, some latv, some lngv, none⟩

/-- An insert body placing a waypoint stop at an explicit position. -/
def waypointBodyAt (p lngv latv : Int) : InsertBody :=
  ⟨some p, none, some latv, some lngv, none⟩

/-- An insert body carrying both location sources: a timeline-entry reference
and a waypoint coordinate. -/
def bodyBoth : InsertBody := ⟨none, some 5, some 1, some 1, none⟩

/-- A database holding the timeline entry that bodyBoth references. -/
def dbTe : DB := ⟨1, [⟨5, 50, 50⟩], [], []⟩

/-- A provider that always answers Ok with one route. -/
def okProvider : Provider := fun _ _ _ _ => ⟨"Ok", [⟨7, 100, 60⟩]⟩

/-- A provider that fails (status NoRoute, no routes) exactly when the
from-longitude equals the given value, and answers Ok otherwise. -/
def failAtLng (l : Int) : Provider := fun fl _ _ _ =>
  if fl == some l then ⟨"NoRoute", []⟩ else ⟨"Ok", [⟨7, 100, 60⟩]⟩

/-- Trip 1 built by three append inserts: waypoint stops A (id 1, position 0,
lng 1), B (id 2, position 1, lng 2), C (id 3, position 2, lng 3). -/
def tripABC : DB :=
  applyOps 1 emptyDB
    [.insert (waypointBody 1 1), .insert (waypointBody 2 2), .insert (waypointBody 3 3)]

/-- tripABC after a successful route generation: segments A to B and B to C are
cached. -/
def tripABCRouted : DB := (generateRoutes okProvider false 1 tripABC).db

/-- The row of stop B inside tripABCRouted. -/
def stopB : Stop := ⟨2, 1, 1, none, some (2, 2), none⟩

/-- A trip whose trip_stops table lists B (id 1, position 1) before A (id 2,
position 0): B was appended first and A then inserted at explicit position 0. -/
def tripBA : DB :=
  applyOps 1 emptyDB [.insert (waypointBody 10 10), .insert (waypointBodyAt 0 20 20)]

/-- tripBA after a successful route generation: the single segment A to B
(from id 2 to id 1) is cached. -/
def tripBARouted : DB := (generateRoutes okProvider false 1 tripBA).db

/-- tripBARouted after inserting waypoint D (id 3) at explicit position 1,
strictly between A and B. -/
def tripBAD : DB := (insertStop 1 (waypointBodyAt 1 30 30) tripBARouted).2

/-! ### Theorems -/

/-- C2, counterexample: the empty list is not a permutation of tripABCRouted's
stop ids {1, 2, 3}, yet the reorder endpoint accepts it (no ValidationError)
and has the side effect of deleting the trip's two cached segments; the
operation is therefore not free of partial effects on invalid input. -/
theorem c2_counterexample :
    (reorderStops 1 (.arr []) tripABCRouted).1 = true ∧
    (reorderStops 1 (.arr []) tripABCRouted).2.trip_route_segments = [] ∧
    tripABCRouted.trip_route_segments ≠ [] := by
  refine ⟨rfl, by decide, by decide⟩

/-- C2 (amended): the reorder endpoint validates only that the body is an
array. A non-array body fails with ValidationError and leaves the database
unchanged; every array body, permutation of the trip's stop ids or not, is
accepted, and its first effect is to delete every cached segment of the trip. -/
theorem c2_reorder_validation (t : Nat) (db : DB) :
    reorderStops t .notArray db = (false, db) ∧
    ∀ order : List Nat,
      (reorderStops t (.arr order) db).1 = true ∧
      (reorderStops t (.arr order) db).2.trip_route_segments =
        db.trip_route_segments.filter (fun g => !(g.trip_id == t)) := by
  exact ⟨rfl, fun _ => ⟨rfl, rfl⟩⟩

/-- C5, counterexample: an insert body carrying both location sources (a
timeline-entry reference and a lat/lng waypoint) is not rejected: the stop is
created, with the timeline-entry branch winning. -/
theorem c5_counterexample :
    hasTimelineRef bodyBoth = true ∧ hasLatLng bodyBoth = true ∧
    (insertStop 1 bodyBoth dbTe).1 = some ⟨1, 1, 0, some 5, none, none⟩ := by
  refine ⟨rfl, rfl, by decide⟩

/-- C5 (amended): the insert endpoint fails with ValidationError exactly when
neither location source is supplied, in which case no stop row is created and
the segment cache is untouched; whenever at least one source is present a stop
is created, the timeline-entry reference winning over the waypoint when both
are supplied, and the created row has exactly one source column set. -/
theorem c5_insert_source_validation (t : Nat) (b : InsertBody) (db : DB) :
    ((insertStop t b db).1 = none ↔ hasSource b = false) ∧
    ((insertStop t b db).1 = none →
      (insertStop t b db).2.trip_stops.map Stop.id = db.trip_stops.map Stop.id ∧
      (insertStop t b db).2.trip_route_segments = db.trip_route_segments) ∧
    (∀ s, (insertStop t b db).1 = some s →
      (s.timeline_entry_id.isSome = true ↔ ¬ s.waypoint_location.isSome = true) ∧
      (hasTimelineRef b = true →
        s.timeline_entry_id = b.timeline_entry_id ∧ s.waypoint_location = none)) := by
  by_cases hsrc : hasSource b = true
  · refine ⟨by simp [insertStop, hsrc], ?_, ?_⟩
    · intro h
      simp [insertStop, hsrc] at h
    · intro s hs
      by_cases hte : hasTimelineRef b = true
      · simp only [insertStop, newStopRow, hsrc, hte, if_true] at hs
        cases hs
        have hsome : b.timeline_entry_id.isSome = true := by
          cases hbe : b.timeline_entry_id with
          | none => simp [hasTimelineRef, hbe] at hte
          | some n => rfl
        exact ⟨by simp [hsome], fun _ => ⟨rfl, rfl⟩⟩
      · simp only [insertStop, newStopRow, hsrc, hte, if_true, Bool.not_eq_true,
          if_false] at hs
        cases hs
        exact ⟨by simp, fun h => absurd h hte⟩
  · rw [Bool.not_eq_true] at hsrc
    refine ⟨by simp [insertStop, hsrc], ?_, ?_⟩
    · intro _
      constructor
      · cases hp : b.position with
        | none => simp [insertStop, hsrc, hp]
        | some p =>
            simp only [insertStop, hsrc, hp, Bool.false_eq_true, if_false,
              shiftForInsert, List.map_map]
            refine List.map_congr_left (fun x _ => ?_)
            simp only [Function.comp_apply, shiftRow]
            split <;> rfl
      · cases hp : b.position with
        | none => simp [insertStop, hsrc, hp]
        | some p => simp [insertStop, hsrc, hp]
    · intro s hs
      simp [insertStop, hsrc] at hs

/-- Witness for c5_insert_source_validation: the stop created from bodyBoth
carries the timeline-entry source and no waypoint. -/
theorem c5_insert_source_validation_witness :
    (⟨1, 1, 0, some 5, none, none⟩ : Stop).timeline_entry_id = bodyBoth.timeline_entry_id ∧
    (⟨1, 1, 0, some 5, none, none⟩ : Stop).waypoint_location = none :=
  ((c5_insert_source_validation 1 bodyBoth dbTe).2.2
    ⟨1, 1, 0, some 5, none, none⟩ (by decide)).2 rfl

/-- C1, counterexample: inserting into an empty trip with the explicit position
argument 1 (the endpoint accepts any position without validation) leaves the
trip with one stop whose position is 1, so the position set is {1}, not {0}. -/
theorem c1_counterexample :
    (tripRows 1 (applyOps 1 emptyDB [.insert (waypointBodyAt 1 0 0)]).trip_stops).length = 1 ∧
    ¬ ∃ s ∈ (applyOps 1 emptyDB [.insert (waypointBodyAt 1 0 0)]).trip_stops,
        s.trip_id = 1 ∧ s.position = 0 := by
  exact ⟨rfl, by decide⟩

/-- C4, counterexample: in tripBAD the stops read in position order are A (id
2), D (id 3), B (id 1) - D was inserted strictly between the former neighbours
A and B - yet the cached segment A to B (from id 2 to id 1) is still present,
because the neighbour query reads the two rows in table order (B's row comes
first) and the handler deletes the reversed pair (1, 2) instead. -/
theorem c4_counterexample :
    tripBARouted.trip_route_segments = [⟨1, 2, 1, 7, 100, 60⟩] ∧
    idsInPositionOrder 1 tripBAD.trip_stops = [2, 3, 1] ∧
    segmentCached 1 2 1 tripBAD = true := by
  exact ⟨by decide, by decide, by decide⟩

/-- C7, counterexample: two route-generation runs over the same three-stop trip
that fail at different pairs - the first at the pair (1, 2), the second at the
pair (2, 3), as the recorded provider calls show - surface exactly the same
error value, so the error reported to the caller does not identify which pair
failed. -/
theorem c7_counterexample :
    (generateRoutes (failAtLng 1) false 1 tripABC).calls = [(1, 2)] ∧
    (generateRoutes (failAtLng 2) false 1 tripABC).calls = [(1, 2), (2, 3)] ∧
    (generateRoutes (failAtLng 1) false 1 tripABC).err =
      (generateRoutes (failAtLng 2) false 1 tripABC).err ∧
    (generateRoutes (failAtLng 1) false 1 tripABC).err =
      some (.routeUnavailable "Mapbox Directions failed: NoRoute") := by
  exact ⟨by decide, by decide, by decide, by decide⟩

/-- The stop row produced by the position-renumbering map of the delete
handler keeps its id. -/
theorem renumber_id (t : Nat) (s x : Stop) :
    (if x.trip_id == t && decide (s.position < x.position) then
      { x with position := x.position - 1 } else x).id = x.id := by
  split <;> rfl

/-- C6: deleting a stop that belongs to the trip succeeds, removes exactly that
row, decrements by one the position of every same-trip stop that sat above the
removed position (every other surviving row keeps its fields), and removes
exactly the cached segments that reference the deleted stop as an endpoint; a
stop id with no row in the trip answers NotFound and changes nothing. -/
theorem c6_delete_stop (t sid : Nat) (db : DB)
    (hids : (db.trip_stops.map Stop.id).Nodup) :
    (∀ s ∈ db.trip_stops, s.id = sid → s.trip_id = t →
      (deleteStop t sid db).1 = true ∧
      (∀ x ∈ (deleteStop t sid db).2.trip_stops, x.id ≠ sid) ∧
      (∀ x ∈ db.trip_stops, x.id ≠ sid →
        ∃ x' ∈ (deleteStop t sid db).2.trip_stops,
          x'.id = x.id ∧ x'.trip_id = x.trip_id ∧
          x'.timeline_entry_id = x.timeline_entry_id ∧
          x'.waypoint_location = x.waypoint_location ∧
          x'.position =
            (if x.trip_id = t ∧ s.position < x.position then x.position - 1
             else x.position)) ∧
      (deleteStop t sid db).2.trip_route_segments =
        db.trip_route_segments.filter (fun g =>
          !(g.from_stop_id == sid || g.to_stop_id == sid))) ∧
    ((∀ s ∈ db.trip_stops, ¬(s.id = sid ∧ s.trip_id = t)) →
      deleteStop t sid db = (false, db)) := by
  constructor
  · intro s hmem hsid htrip
    have hfind : ∃ s', db.trip_stops.find? (fun x => x.id == sid && x.trip_id == t) = some s' := by
      rw [← Option.isSome_iff_exists]
      rw [List.find?_isSome]
      exact ⟨s, hmem, by simp [hsid, htrip]⟩
    obtain ⟨s', hfind⟩ := hfind
    have hps' := List.find?_some hfind
    have hmem' := List.mem_of_find?_eq_some hfind
    simp only [Bool.and_eq_true, beq_iff_eq] at hps'
    have hseq : s = s' :=
      List.inj_on_of_nodup_map hids hmem hmem' (hsid.trans hps'.1.symm)
    subst hseq
    refine ⟨?_, ?_, ?_, ?_⟩
    · simp [deleteStop, hfind]
    · intro x hx
      simp only [deleteStop, hfind] at hx
      rw [List.mem_map] at hx
      obtain ⟨y, hy, rfl⟩ := hx
      rw [List.mem_filter] at hy
      have : ¬(y.id == sid) = true := by
        simpa using hy.2
      rw [renumber_id]
      simpa using this
    · intro x hx hxid
      refine ⟨if x.trip_id == t && decide (s.position < x.position) then
          { x with position := x.position - 1 } else x, ?_, ?_⟩
      · simp only [deleteStop, hfind]
        refine List.mem_map_of_mem _ (List.mem_filter.mpr ⟨hx, ?_⟩)
        simpa using hxid
      · constructor
        · exact renumber_id t s x
        · by_cases hc : x.trip_id = t ∧ s.position < x.position
        <;> simp [hc]
    · simp [deleteStop, hfind]
  · intro hnone
    have hfind : db.trip_stops.find? (fun x => x.id == sid && x.trip_id == t) = none := by
      rw [List.find?_eq_none]
      intro x hx
      have := hnone x hx
      simp only [Bool.and_eq_true, beq_iff_eq]
      tauto
    simp [deleteStop, hfind]

/-- Witness for c6_delete_stop: deleting stop B (id 2) from the routed trip
A, B, C succeeds and removes exactly the two cached segments touching B. -/
theorem c6_delete_stop_witness :
    (deleteStop 1 2 tripABCRouted).1 = true ∧
    (deleteStop 1 2 tripABCRouted).2.trip_route_segments =
      tripABCRouted.trip_route_segments.filter (fun g =>
        !(g.from_stop_id == 2 || g.to_stop_id == 2)) := by
  have h := (c6_delete_stop 1 2 tripABCRouted (by decide)).1 stopB (by decide) rfl rfl
  exact ⟨h.1, h.2.2.2⟩

/-- Every element of a list is bounded by a fold of max over it. -/
theorem le_foldr_max (l : List Int) (x : Int) (hx : x ∈ l) (base : Int) :
    x ≤ l.foldr max base := by
  induction l with
  | nil => cases hx
  | cons a l ih =>
      rcases List.mem_cons.mp hx with rfl | h
      · exact le_max_left _ _
      · exact le_trans (ih h) (le_max_right _ _)

/-- A duplicate-free list whose elements are all equal has at most one
element. -/
theorem length_le_one_of_nodup_const (l : List Int) (m : Int) (hnd : l.Nodup)
    (hall : ∀ x ∈ l, x = m) : l.length ≤ 1 := by
  match l with
  | [] => simp
  | [a] => simp
  | a :: c :: l2 =>
      exfalso
      have ha : a = m := hall a (by simp)
      have hc : c = m := hall c (by simp)
      rw [List.nodup_cons] at hnd
      exact hnd.1 (by rw [ha, ← hc]; simp)

/-- The spanned-segment invalidation is a no-op when the neighbour query
returned fewer than two rows. -/
theorem invalidateSpanned_short (t : Nat) (neighbors : List Stop)
    (segs : List Segment) (h : neighbors.length ≤ 1) :
    invalidateSpanned t neighbors segs = segs := by
  match neighbors with
  | [] => rfl
  | [n] => rfl
  | n0 :: n1 :: rest => simp at h

/-- The endpoint invalidation is a no-op when no cached segment references the
stop id. -/
theorem invalidateEndpoints_fresh (t sid : Nat) (segs : List Segment)
    (h : ∀ g ∈ segs, g.from_stop_id ≠ sid ∧ g.to_stop_id ≠ sid) :
    invalidateEndpoints t sid segs = segs := by
  rw [invalidateEndpoints, List.filter_eq_self]
  intro g hg
  obtain ⟨h1, h2⟩ := h g hg
  simp [h1, h2]

/-- C10: an insert without an explicit position appends: the new stop gets
position max(position) + 1 (position 0 for an empty trip, since the max
defaults to -1), the stop table is only extended, and the segment cache of
every trip is left completely unchanged. -/
theorem c10_append_frame (t : Nat) (b : InsertBody) (db : DB)
    (hpos : b.position = none) (hsrc : hasSource b = true)
    (hfresh : ∀ g ∈ db.trip_route_segments,
      g.from_stop_id ≠ db.nextStopId ∧ g.to_stop_id ≠ db.nextStopId)
    (hposNodup : ((tripRows t db.trip_stops).map Stop.position).Nodup) :
    ∃ s, insertStop t b db =
        (some s,
          { db with nextStopId := db.nextStopId + 1,
                    trip_stops := db.trip_stops ++ [s] }) ∧
      s.position = maxPosition t db + 1 := by
  have hub : ∀ x ∈ tripRows t db.trip_stops, x.position ≤ maxPosition t db := by
    intro x hx
    exact le_foldr_max _ _ (List.mem_map_of_mem _ hx) _
  refine ⟨newStopRow t b db.nextStopId (maxPosition t db + 1), ?_, ?_⟩
  · have hid : (newStopRow t b db.nextStopId (maxPosition t db + 1)).id = db.nextStopId := by
      unfold newStopRow; split <;> rfl
    have hnp : (newStopRow t b db.nextStopId (maxPosition t db + 1)).position =
        maxPosition t db + 1 := by
      unfold newStopRow; split <;> rfl
    have hnbLen : (neighborRows t (maxPosition t db + 1)
        (db.trip_stops ++ [newStopRow t b db.nextStopId (maxPosition t db + 1)])).length ≤ 1 := by
      rw [neighborRows, List.filter_append]
      have hfilterNew :
          List.filter (fun s => s.trip_id == t &&
              (s.position == maxPosition t db + 1 - 1 || s.position == maxPosition t db + 1 + 1))
            [newStopRow t b db.nextStopId (maxPosition t db + 1)] = [] := by
        simp only [List.filter, hnp]
        have : ((maxPosition t db + 1 == maxPosition t db + 1 - 1 : Bool) ||
            (maxPosition t db + 1 == maxPosition t db + 1 + 1 : Bool)) = false := by
          simp only [Bool.or_eq_false_iff, beq_eq_false_iff_ne]
          omega
        rw [this]
        simp
      rw [hfilterNew]
      have hsame :
          List.filter (fun s => s.trip_id == t &&
              (s.position == maxPosition t db + 1 - 1 || s.position == maxPosition t db + 1 + 1))
            db.trip_stops =
          List.filter (fun s =>
              s.position == maxPosition t db + 1 - 1 || s.position == maxPosition t db + 1 + 1)
            (tripRows t db.trip_stops) := by
        rw [tripRows, List.filter_filter]
        exact List.filter_congr (fun x _ => Bool.and_comm _ _)
      rw [hsame]
      have hnd2 : ((List.filter (fun s =>
          s.position == maxPosition t db + 1 - 1 || s.position == maxPosition t db + 1 + 1)
          (tripRows t db.trip_stops)).map Stop.position).Nodup :=
        ((List.filter_sublist _).map Stop.position).nodup hposNodup
      have hall : ∀ x ∈ (List.filter (fun s =>
          s.position == maxPosition t db + 1 - 1 || s.position == maxPosition t db + 1 + 1)
          (tripRows t db.trip_stops)).map Stop.position, x = maxPosition t db := by
        intro x hx
        rw [List.mem_map] at hx
        obtain ⟨s, hs, rfl⟩ := hx
        rw [List.mem_filter] at hs
        have hle := hub s hs.1
        have hcond := hs.2
        simp only [Bool.or_eq_true, beq_iff_eq] at hcond
        omega
      have := length_le_one_of_nodup_const _ _ hnd2 hall
      simpa using this
    simp only [insertStop, hpos, hsrc, if_true]
    rw [hid, invalidateEndpoints_fresh t db.nextStopId _ hfresh,
      invalidateSpanned_short _ _ _ hnbLen]
  · unfold newStopRow
    split <;> rfl

/-- Witness for c10_append_frame: appending a waypoint to the routed trip
A, B, C keeps both cached segments and the whole database except for the one
appended row. -/
theorem c10_append_frame_witness :
    ∃ s, insertStop 1 (waypointBody 4 4) tripABCRouted =
        (some s,
          { tripABCRouted with nextStopId := tripABCRouted.nextStopId + 1,
                               trip_stops := tripABCRouted.trip_stops ++ [s] }) ∧
      s.position = maxPosition 1 tripABCRouted + 1 :=
  c10_append_frame 1 (waypointBody 4 4) tripABCRouted rfl rfl (by decide) (by decide)

/-- When the table splits into a head block, one matching row, a middle block,
a second matching row, and a tail block, with every block row failing the
neighbour predicate, the neighbour query returns exactly the two matching rows
in table order. -/
theorem neighborRows_eq_pair (t : Nat) (p : Int) (a bb : Stop)
    (l1 l2 l3 : List Stop)
    (hqa : (a.trip_id == t && (a.position == p - 1 || a.position == p + 1)) = true)
    (hqb : (bb.trip_id == t && (bb.position == p - 1 || bb.position == p + 1)) = true)
    (hrest : ∀ x, x ∈ l1 ∨ x ∈ l2 ∨ x ∈ l3 →
      (x.trip_id == t && (x.position == p - 1 || x.position == p + 1)) = false) :
    neighborRows t p (l1 ++ a :: (l2 ++ bb :: l3)) = [a, bb] := by
  rw [neighborRows]
  have e1 : List.filter
      (fun s => s.trip_id == t && (s.position == p - 1 || s.position == p + 1)) l1 = [] :=
    List.filter_eq_nil_iff.mpr (fun x hx => by simp [hrest x (Or.inl hx)])
  have e2 : List.filter
      (fun s => s.trip_id == t && (s.position == p - 1 || s.position == p + 1)) l2 = [] :=
    List.filter_eq_nil_iff.mpr (fun x hx => by simp [hrest x (Or.inr (Or.inl hx))])
  have e3 : List.filter
      (fun s => s.trip_id == t && (s.position == p - 1 || s.position == p + 1)) l3 = [] :=
    List.filter_eq_nil_iff.mpr (fun x hx => by simp [hrest x (Or.inr (Or.inr hx))])
  simp [List.filter_append, List.filter_cons, hqa, hqb, e1, e2, e3]

/-- C4 (amended): inserting a stop at explicit position p strictly between two
existing stops - the row at position p - 1 and the row at position p, which
become the new stop's neighbours - removes exactly the one cached segment
joining those two former neighbours and no other segment, PROVIDED the
position-(p-1) neighbour precedes the position-p neighbour in table order
(which holds when stops were appended in order).  The neighbour query has no
ORDER BY, so the handler's assumption that the first returned row is the
earlier neighbour is a property of table order, not of positions. -/
theorem c4_insert_between (t : Nat) (b : InsertBody) (db : DB) (p : Int)
    (a bb : Stop) (l1 l2 l3 : List Stop)
    (hsplit : db.trip_stops = l1 ++ a :: (l2 ++ bb :: l3))
    (hpos : b.position = some p) (hsrc : hasSource b = true)
    (ha : a.trip_id = t) (hapos : a.position = p - 1)
    (hb : bb.trip_id = t) (hbpos : bb.position = p)
    (hothers : ∀ x, x ∈ l1 ∨ x ∈ l2 ∨ x ∈ l3 → x.trip_id = t →
      x.position ≠ p - 1 ∧ x.position ≠ p)
    (hfresh : ∀ g ∈ db.trip_route_segments,
      g.from_stop_id ≠ db.nextStopId ∧ g.to_stop_id ≠ db.nextStopId) :
    ∃ s, (insertStop t b db).1 = some s ∧ s.id = db.nextStopId ∧ s.position = p ∧
      (insertStop t b db).2.trip_stops = shiftForInsert t p db.trip_stops ++ [s] ∧
      (insertStop t b db).2.trip_route_segments =
        db.trip_route_segments.filter (fun g =>
          !(g.trip_id == t && g.from_stop_id == a.id && g.to_stop_id == bb.id)) := by
  have hid : (newStopRow t b db.nextStopId p).id = db.nextStopId := by
    unfold newStopRow; split <;> rfl
  have hnp : (newStopRow t b db.nextStopId p).position = p := by
    unfold newStopRow; split <;> rfl
  have hnt : (newStopRow t b db.nextStopId p).trip_id = t := by
    unfold newStopRow; split <;> rfl
  have sha : shiftRow t p a = a := by
    simp only [shiftRow, Bool.and_eq_true, beq_iff_eq, decide_eq_true_eq]
    rw [if_neg]
    rintro ⟨-, hle⟩
    omega
  have shb : shiftRow t p bb = { bb with position := p + 1 } := by
    simp only [shiftRow, Bool.and_eq_true, beq_iff_eq, decide_eq_true_eq]
    rw [if_pos ⟨hb, by omega⟩, hbpos]
  have hqshift : ∀ y : Stop, (y.trip_id = t → y.position ≠ p - 1 ∧ y.position ≠ p) →
      ((shiftRow t p y).trip_id == t &&
        ((shiftRow t p y).position == p - 1 || (shiftRow t p y).position == p + 1)) = false := by
    intro y hy
    by_cases hyt : y.trip_id = t
    · obtain ⟨h1, h2⟩ := hy hyt
      by_cases hyp : p ≤ y.position
      · rw [shiftRow, if_pos (by simp [hyt, hyp])]
        simp only [Bool.and_eq_false_iff, Bool.or_eq_false_iff, beq_eq_false_iff_ne]
        right
        constructor <;> (intro hcontra; omega)
      · rw [shiftRow, if_neg (by simp [hyp])]
        simp only [Bool.and_eq_false_iff, Bool.or_eq_false_iff, beq_eq_false_iff_ne]
        right
        constructor <;> (intro hcontra; omega)
    · have htid : (shiftRow t p y).trip_id = y.trip_id := by
        rw [shiftRow]; split <;> rfl
      simp [htid, hyt]
  have hshape : shiftForInsert t p db.trip_stops ++ [newStopRow t b db.nextStopId p] =
      List.map (shiftRow t p) l1 ++ a :: (List.map (shiftRow t p) l2 ++
        { bb with position := p + 1 } ::
          (List.map (shiftRow t p) l3 ++ [newStopRow t b db.nextStopId p])) := by
    rw [hsplit, shiftForInsert, List.map_append, List.map_cons, List.map_append,
      List.map_cons, sha, shb]
    simp [List.append_assoc]
  have hnb : neighborRows t p
      (shiftForInsert t p db.trip_stops ++ [newStopRow t b db.nextStopId p]) =
      [a, { bb with position := p + 1 }] := by
    rw [hshape]
    refine neighborRows_eq_pair t p a { bb with position := p + 1 } _ _ _ ?_ ?_ ?_
    · simp [ha, hapos]
    · simp [hb]
    · intro x hx
      rcases hx with hx | hx | hx
      · rw [List.mem_map] at hx
        obtain ⟨y, hy, rfl⟩ := hx
        exact hqshift y (hothers y (Or.inl hy))
      · rw [List.mem_map] at hx
        obtain ⟨y, hy, rfl⟩ := hx
        exact hqshift y (hothers y (Or.inr (Or.inl hy)))
      · rw [List.mem_append] at hx
        rcases hx with hx | hx
        · rw [List.mem_map] at hx
          obtain ⟨y, hy, rfl⟩ := hx
          exact hqshift y (hothers y (Or.inr (Or.inr hy)))
        · rw [List.mem_singleton] at hx
          subst hx
          rw [hnt, hnp]
          simp only [Bool.and_eq_false_iff, Bool.or_eq_false_iff, beq_eq_false_iff_ne]
          right
          constructor <;> (intro hcontra; omega)
  refine ⟨newStopRow t b db.nextStopId p, ?_, hid, hnp, ?_, ?_⟩
  · simp [insertStop, hpos, hsrc]
  · simp [insertStop, hpos, hsrc]
  · simp only [insertStop, hpos, hsrc, if_true]
    rw [hid, invalidateEndpoints_fresh t db.nextStopId _ hfresh, hnb]
    rfl

/-- Witness for c4_insert_between: inserting waypoint D at position 1 of the
routed trip A, B, C (table order A, B, C) removes exactly the cached segment
from A (id 1) to B (id 2) and nothing else. -/
theorem c4_insert_between_witness :
    ∃ s, (insertStop 1 (waypointBodyAt 1 9 9) tripABCRouted).1 = some s ∧
      s.id = tripABCRouted.nextStopId ∧ s.position = 1 ∧
      (insertStop 1 (waypointBodyAt 1 9 9) tripABCRouted).2.trip_stops =
        shiftForInsert 1 1 tripABCRouted.trip_stops ++ [s] ∧
      (insertStop 1 (waypointBodyAt 1 9 9) tripABCRouted).2.trip_route_segments =
        tripABCRouted.trip_route_segments.filter (fun g =>
          !(g.trip_id == 1 && g.from_stop_id == 1 && g.to_stop_id == 2)) :=
  c4_insert_between 1 (waypointBodyAt 1 9 9) tripABCRouted 1
    ⟨1, 1, 0, none, some (1, 1), none⟩ ⟨2, 1, 1, none, some (2, 2), none⟩
    [] [] [⟨3, 1, 2, none, some (3, 3), none⟩]
    (by decide) rfl rfl rfl (by decide) rfl (by decide)
    (by
      intro x hx
      rcases hx with hx | hx | hx
      · cases hx
      · cases hx
      · rw [List.mem_singleton] at hx
        subst hx
        exact fun _ => ⟨by decide, by decide⟩)
    (by decide)

/-- A single reorder update never changes a row's id. -/
theorem stepRow_id (t : Nat) (s : Stop) (step : Nat × Int) :
    (stepRow t s step).id = s.id := by
  rw [stepRow]; split <;> rfl

/-- A single reorder update never changes a row's trip. -/
theorem stepRow_trip (t : Nat) (s : Stop) (step : Nat × Int) :
    (stepRow t s step).trip_id = s.trip_id := by
  rw [stepRow]; split <;> rfl

/-- A fold of reorder updates never changes a row's id. -/
theorem foldl_stepRow_id (t : Nat) (steps : List (Nat × Int)) (s : Stop) :
    (steps.foldl (stepRow t) s).id = s.id := by
  induction steps generalizing s with
  | nil => rfl
  | cons st rest ih => rw [List.foldl_cons, ih, stepRow_id]

/-- A fold of reorder updates never changes a row's trip. -/
theorem foldl_stepRow_trip (t : Nat) (steps : List (Nat × Int)) (s : Stop) :
    (steps.foldl (stepRow t) s).trip_id = s.trip_id := by
  induction steps generalizing s with
  | nil => rfl
  | cons st rest ih => rw [List.foldl_cons, ih, stepRow_trip]

/-- Running the single-row updates over the whole table equals updating each
row by the pointwise fold of the updates. -/
theorem foldl_setStopPosition (t : Nat) (steps : List (Nat × Int)) (stops : List Stop) :
    steps.foldl (setStopPosition t) stops =
      stops.map (fun s => steps.foldl (stepRow t) s) := by
  induction steps generalizing stops with
  | nil => simp
  | cons st rest ih =>
      rw [List.foldl_cons, ih, setStopPosition, List.map_map]
      rfl

/-- Rows of other trips are untouched by the reorder updates. -/
theorem foldl_stepRow_other_trip (t : Nat) (steps : List (Nat × Int)) (s : Stop)
    (h : s.trip_id ≠ t) : steps.foldl (stepRow t) s = s := by
  induction steps with
  | nil => rfl
  | cons st rest ih =>
      rw [List.foldl_cons, stepRow, if_neg (by simp [h]), ih]

/-- An assignment pass over ids not containing the row's id leaves the row
unchanged. -/
theorem foldl_assign_not_mem (t : Nat) (v : Nat → Int) (s : Stop) :
    ∀ (order : List Nat) (k : Nat), s.id ∉ order →
      (assignStepsFrom v k order).foldl (stepRow t) s = s := by
  intro order
  induction order with
  | nil => intro k _; rfl
  | cons a rest ih =>
      intro k h
      rw [assignStepsFrom, List.enumFrom_cons, List.map_cons, List.foldl_cons]
      have hne : s.id ≠ a := fun hc => h (by simp [hc])
      rw [stepRow, if_neg (by simp [hne])]
      exact ih (k + 1) (fun hc => h (List.mem_cons_of_mem _ hc))

/-- An assignment pass hits the row listed at index j exactly once, giving it
position v (k + j). -/
theorem foldl_assign_mem (t : Nat) (v : Nat → Int) (s : Stop) (htrip : s.trip_id = t) :
    ∀ (order : List Nat) (k j : Nat), order.Nodup → order.get? j = some s.id →
      (assignStepsFrom v k order).foldl (stepRow t) s = { s with position := v (k + j) } := by
  intro order
  induction order with
  | nil => intro k j _ hj; simp at hj
  | cons a rest ih =>
      intro k j hnd hj
      rw [assignStepsFrom, List.enumFrom_cons, List.map_cons, List.foldl_cons]
      rw [List.nodup_cons] at hnd
      cases j with
      | zero =>
          have ha : a = s.id := by simpa using hj
          rw [stepRow, if_pos (by simp [ha, htrip])]
          have hnm : ({ s with position := v k } : Stop).id ∉ rest := by
            simpa [ha] using hnd.1
          exact foldl_assign_not_mem t v _ rest (k + 1) hnm
      | succ j' =>
          have hj' : rest.get? j' = some s.id := by simpa using hj
          have hne : s.id ≠ a := by
            intro hc
            exact hnd.1 (hc ▸ List.get?_mem hj')
          rw [stepRow, if_neg (by simp [hne])]
          have harg : k + 1 + j' = k + (j' + 1) := by omega
          rw [← harg]
          exact ih (k + 1) j' hnd.2 hj'

/-- The reorder handler's update sequence is the negative staging pass followed
by the final assignment pass. -/
theorem stagingSteps_eq (order : List Nat) :
    stagingSteps order =
      assignStepsFrom (fun i => -((i : Int) + 1)) 0 order ++
      assignStepsFrom (fun i => (i : Int)) 0 order := rfl

/-- Enumeration commutes with take. -/
theorem enumFrom_take (order : List Nat) :
    ∀ (k m : Nat), (order.enumFrom k).take m = (order.take m).enumFrom k := by
  induction order with
  | nil => intro k m; simp
  | cons a rest ih =>
      intro k m
      cases m with
      | zero => simp
      | succ m' =>
          rw [List.enumFrom_cons, List.take_succ_cons, List.take_succ_cons,
            List.enumFrom_cons, ih]

/-- An assignment pass commutes with take. -/
theorem take_assignStepsFrom (v : Nat → Int) (k m : Nat) (order : List Nat) :
    (assignStepsFrom v k order).take m = assignStepsFrom v k (order.take m) := by
  rw [assignStepsFrom, assignStepsFrom, ← List.map_take, enumFrom_take]

/-- An assignment pass has one step per listed id. -/
theorem length_assignStepsFrom (v : Nat → Int) (k : Nat) (order : List Nat) :
    (assignStepsFrom v k order).length = order.length := by
  rw [assignStepsFrom, List.length_map, List.enumFrom_length]

/-- Every intermediate state of a scanl is the fold of a step sequence front
segment. -/
theorem mem_scanl {α β : Type} (f : β → α → β) (b : β) (l : List α) (x : β)
    (hx : x ∈ l.scanl f b) : ∃ m, x = (l.take m).foldl f b := by
  induction l generalizing b with
  | nil =>
      simp [List.scanl] at hx
      exact ⟨0, by simp [hx]⟩
  | cons a rest ih =>
      rw [List.scanl_cons] at hx
      rcases List.mem_append.mp hx with h1 | h2
      · rw [List.mem_singleton] at h1
        exact ⟨0, by simp [h1]⟩
      · obtain ⟨m, hm⟩ := ih (f b a) h2
        exact ⟨m + 1, by rw [List.take_succ_cons, List.foldl_cons]; exact hm⟩

/-- In a duplicate-free list an element determines its index. -/
theorem nodup_get?_inj {l : List Nat} (h : l.Nodup) {i j x : Nat}
    (hi : l.get? i = some x) (hj : l.get? j = some x) : i = j := by
  obtain ⟨hi', hgi⟩ := List.get?_eq_some.mp hi
  obtain ⟨hj', hgj⟩ := List.get?_eq_some.mp hj
  have hinj := List.nodup_iff_injective_get.mp h
  have hfin : (⟨i, hi'⟩ : Fin l.length) = ⟨j, hj'⟩ := hinj (by rw [hgi, hgj])
  exact congrArg Fin.val hfin

/-- In a duplicate-free list the element at index j is not among the first m
elements when m ≤ j. -/
theorem not_mem_take_of_get? {order : List Nat} (horder : order.Nodup)
    {j m : Nat} {x : Nat} (hj : order.get? j = some x) (hjm : ¬ j < m) :
    x ∉ order.take m := by
  intro hmem
  obtain ⟨j', hj'⟩ := List.mem_iff_get?.mp hmem
  have hj'lt : j' < m := by
    have := (List.get?_eq_some.mp hj').1
    have hle := List.length_take_le m order
    calc j' < (order.take m).length := this
    _ ≤ m := List.length_take_le m order
  have hj'full : order.get? j' = some x := by
    rw [← List.get?_take hj'lt]
    exact hj'
  exact hjm (nodup_get?_inj horder hj hj'full ▸ hj'lt)

/-- Selecting a trip's rows commutes with a table map that preserves the trip
column. -/
theorem tripRows_map (t : Nat) (f : Stop → Stop)
    (h : ∀ s, (f s).trip_id = s.trip_id) (l : List Stop) :
    tripRows t (l.map f) = (tripRows t l).map f := by
  rw [tripRows, tripRows, List.filter_map]
  congr 1
  exact List.filter_congr (fun x _ => by simp [Function.comp, h])

/-- Rows selected for a trip carry that trip id. -/
theorem tripRows_trip {t : Nat} {l : List Stop} {s : Stop}
    (h : s ∈ tripRows t l) : s.trip_id = t := by
  have := (List.mem_filter.mp h).2
  simpa using this

/-- A filterMap that always produces a value is a map. -/
theorem filterMap_eq_map_of_forall {α β : Type} (l : List α) (f : α → Option β)
    (g : α → β) (h : ∀ a ∈ l, f a = some (g a)) : l.filterMap f = l.map g := by
  induction l with
  | nil => rfl
  | cons a l ih =>
      rw [List.filterMap_cons, h a (by simp), List.map_cons,
        ih (fun x hx => h x (by simp [hx]))]

/-- C3: reordering with a genuine permutation of the trip's stop ids makes the
position-ordered id sequence equal the requested list exactly, makes the
position set exactly 0..N-1, and after no intermediate UPDATE statement of the
operation do two stops of the trip share a position: the first pass moves rows
into the disjoint negative range, the second writes the final indices. -/
theorem c3_reorder_permutation (t : Nat) (order : List Nat) (db : DB)
    (hids : (db.trip_stops.map Stop.id).Nodup)
    (hperm : order.Perm ((tripRows t db.trip_stops).map Stop.id))
    (hposnd : ((tripRows t db.trip_stops).map Stop.position).Nodup)
    (hpos0 : ∀ s ∈ tripRows t db.trip_stops, 0 ≤ s.position) :
    idsInPositionOrder t (reorderStops t (.arr order) db).2.trip_stops = order ∧
    (∀ q : Int,
      (∃ s ∈ tripRows t (reorderStops t (.arr order) db).2.trip_stops, s.position = q) ↔
        0 ≤ q ∧ q < (order.length : Int)) ∧
    (∀ st ∈ reorderStates t order db.trip_stops,
      ((tripRows t st).map Stop.position).Nodup) := by
  have htid : ((tripRows t db.trip_stops).map Stop.id).Nodup :=
    ((List.filter_sublist _).map Stop.id).nodup hids
  have horder : order.Nodup := hperm.nodup_iff.mpr htid
  have hlen : order.length = (tripRows t db.trip_stops).length := by
    simpa using hperm.length_eq
  have hstops : (reorderStops t (.arr order) db).2.trip_stops =
      db.trip_stops.map (fun s => (stagingSteps order).foldl (stepRow t) s) := by
    rw [show (reorderStops t (.arr order) db).2.trip_stops =
      (stagingSteps order).foldl (setStopPosition t) db.trip_stops from rfl]
    exact foldl_setStopPosition t _ _
  have hindex : ∀ s ∈ tripRows t db.trip_stops,
      ∃ j, j < order.length ∧ order.get? j = some s.id := by
    intro s hs
    have hmem : s.id ∈ order := hperm.mem_iff.mpr (List.mem_map_of_mem _ hs)
    obtain ⟨j, hj⟩ := List.mem_iff_get?.mp hmem
    exact ⟨j, (List.get?_eq_some.mp hj).1, hj⟩
  have hfinal : ∀ s ∈ tripRows t db.trip_stops, ∀ j, order.get? j = some s.id →
      (stagingSteps order).foldl (stepRow t) s = { s with position := (j : Int) } := by
    intro s hs j hj
    have htrip : s.trip_id = t := tripRows_trip hs
    rw [stagingSteps_eq, List.foldl_append]
    rw [foldl_assign_mem t (fun i => -((i : Int) + 1)) s htrip order 0 j horder hj]
    refine (foldl_assign_mem t (fun i => (i : Int)) _ ?_ order 0 j horder ?_).trans ?_
    · exact htrip
    · exact hj
    · have h0 : 0 + j = j := by omega
      rw [h0]
  have hmaptrip : ∀ s : Stop,
      ((stagingSteps order).foldl (stepRow t) s).trip_id = s.trip_id :=
    fun s => foldl_stepRow_trip t _ s
  have htrips' : tripRows t (reorderStops t (.arr order) db).2.trip_stops =
      (tripRows t db.trip_stops).map (fun s => (stagingSteps order).foldl (stepRow t) s) := by
    rw [hstops, tripRows_map t _ hmaptrip]
  have hlen' : (tripRows t (reorderStops t (.arr order) db).2.trip_stops).length =
      order.length := by
    rw [htrips', List.length_map, hlen]
  have hfindp : ∀ p : Nat, ∀ idp, order.get? p = some idp →
      ((tripRows t (reorderStops t (.arr order) db).2.trip_stops).find?
        (fun s => s.position == (p : Int))).map Stop.id = some idp := by
    intro p idp hidp
    have hidmem : idp ∈ (tripRows t db.trip_stops).map Stop.id :=
      hperm.mem_iff.mp (List.get?_mem hidp)
    rw [List.mem_map] at hidmem
    obtain ⟨s0, hs0, hs0id⟩ := hidmem
    obtain ⟨x, hx⟩ : ∃ x, (tripRows t (reorderStops t (.arr order) db).2.trip_stops).find?
        (fun s => s.position == (p : Int)) = some x := by
      rw [← Option.isSome_iff_exists, List.find?_isSome]
      refine ⟨(stagingSteps order).foldl (stepRow t) s0, ?_, ?_⟩
      · rw [htrips']; exact List.mem_map_of_mem _ hs0
      · rw [hfinal s0 hs0 p (by rw [hs0id]; exact hidp)]
        simp
    have hxpos := List.find?_some hx
    have hxmem := List.mem_of_find?_eq_some hx
    rw [htrips', List.mem_map] at hxmem
    obtain ⟨s1, hs1, hs1x⟩ := hxmem
    obtain ⟨j1, hj1lt, hj1⟩ := hindex s1 hs1
    have hxval : x = { s1 with position := (j1 : Int) } := by
      rw [← hs1x, hfinal s1 hs1 j1 hj1]
    have hcast : ((j1 : Int)) = (p : Int) := by
      rw [hxval] at hxpos; simpa using hxpos
    have hj1p : j1 = p := by exact_mod_cast hcast
    subst hj1p
    have hsid : s1.id = idp := by
      rw [hidp] at hj1
      exact (Option.some.inj hj1).symm
    rw [hx, hxval]
    simp [hsid]
  have hids_order :
      idsInPositionOrder t (reorderStops t (.arr order) db).2.trip_stops = order := by
    rw [idsInPositionOrder, hlen']
    rw [filterMap_eq_map_of_forall (List.range order.length) _
      (fun p => order.getD p 0) ?_]
    · refine List.ext_get ?_ ?_
      · rw [List.length_map, List.length_range]
      · intro n h1 h2
        rw [List.get_map]
        have hn : n < order.length := by simpa using h2
        have hr : (List.range order.length).get
            ⟨n, by simpa using h1⟩ = n := List.get_range _ _
        rw [hr, List.getD_eq_get?, List.get?_eq_get hn]
        rfl
    · intro p hp
      have hp' : p < order.length := by simpa using hp
      obtain ⟨idp, hidp⟩ : ∃ idp, order.get? p = some idp := by
        cases h : order.get? p with
        | none =>
            rw [List.get?_eq_none] at h
            omega
        | some y => exact ⟨y, rfl⟩
      rw [hfindp p idp hidp]
      show some idp = some (order.getD p 0)
      rw [List.getD_eq_get?, hidp]
      rfl
  have hsetiff : ∀ q : Int,
      (∃ s ∈ tripRows t (reorderStops t (.arr order) db).2.trip_stops, s.position = q) ↔
        0 ≤ q ∧ q < (order.length : Int) := by
    intro q
    constructor
    · rintro ⟨s', hs', rfl⟩
      rw [htrips', List.mem_map] at hs'
      obtain ⟨s, hs, rfl⟩ := hs'
      obtain ⟨j, hjlt, hj⟩ := hindex s hs
      rw [hfinal s hs j hj]
      simp only
      constructor <;> omega
    · rintro ⟨hq0, hqlt⟩
      have hql : q.toNat < order.length := by omega
      obtain ⟨idp, hidp⟩ : ∃ idp, order.get? q.toNat = some idp := by
        cases h : order.get? q.toNat with
        | none =>
            rw [List.get?_eq_none] at h
            omega
        | some y => exact ⟨y, rfl⟩
      have hidmem : idp ∈ (tripRows t db.trip_stops).map Stop.id :=
        hperm.mem_iff.mp (List.get?_mem hidp)
      rw [List.mem_map] at hidmem
      obtain ⟨s0, hs0, hs0id⟩ := hidmem
      refine ⟨(stagingSteps order).foldl (stepRow t) s0, ?_, ?_⟩
      · rw [htrips']; exact List.mem_map_of_mem _ hs0
      · rw [hfinal s0 hs0 q.toNat (by rw [hs0id]; exact hidp)]
        simp only
        omega
  refine ⟨hids_order, hsetiff, ?_⟩
  intro st hst
  rw [reorderStates] at hst
  obtain ⟨m, rfl⟩ := mem_scanl _ _ _ _ hst
  rw [foldl_setStopPosition,
    tripRows_map t _ (fun s => foldl_stepRow_trip t _ s), List.map_map]
  refine List.Nodup.map_on ?_ (List.Nodup.of_map Stop.id htid)
  rcases le_or_lt m order.length with hm | hm
  · have hpf : ∀ s ∈ tripRows t db.trip_stops, ∀ j, order.get? j = some s.id →
        ((stagingSteps order).take m).foldl (stepRow t) s =
          if j < m then { s with position := -((j : Int) + 1) } else s := by
      intro s hs j hj
      have htrip := tripRows_trip hs
      rw [stagingSteps_eq, List.take_append_eq_append_take, length_assignStepsFrom,
        Nat.sub_eq_zero_of_le hm, List.take_zero, List.append_nil, take_assignStepsFrom]
      by_cases hjm : j < m
      · rw [if_pos hjm]
        have hjtake : (order.take m).get? j = some s.id := by
          rw [List.get?_take hjm]; exact hj
        have hndtake : (order.take m).Nodup := (List.take_sublist m order).nodup horder
        refine (foldl_assign_mem t (fun i => -((i : Int) + 1)) s htrip
          (order.take m) 0 j hndtake hjtake).trans ?_
        have h0 : 0 + j = j := by omega
        rw [h0]
      · rw [if_neg hjm]
        exact foldl_assign_not_mem t _ s (order.take m) 0
          (not_mem_take_of_get? horder hj hjm)
    intro x hx y hy hxy
    by_cases hxyeq : x = y
    · exact hxyeq
    exfalso
    obtain ⟨j1, hj1lt, hj1⟩ := hindex x hx
    obtain ⟨j2, hj2lt, hj2⟩ := hindex y hy
    have hidne : x.id ≠ y.id := fun hc => hxyeq (List.inj_on_of_nodup_map htid hx hy hc)
    have hjne : j1 ≠ j2 := by
      intro hc
      rw [hc, hj2] at hj1
      exact hidne (Option.some.inj hj1).symm
    simp only [Function.comp_apply] at hxy
    rw [hpf x hx j1 hj1, hpf y hy j2 hj2] at hxy
    by_cases h1 : j1 < m <;> by_cases h2 : j2 < m <;>
        simp only [h1, h2, if_true, if_false] at hxy
    · omega
    · have hy0 := hpos0 y hy
      omega
    · have hx0 := hpos0 x hx
      omega
    · exact hxyeq (List.inj_on_of_nodup_map hposnd hx hy hxy)
  · have hpf : ∀ s ∈ tripRows t db.trip_stops, ∀ j, order.get? j = some s.id →
        ((stagingSteps order).take m).foldl (stepRow t) s =
          if j < m - order.length then { s with position := (j : Int) }
          else { s with position := -((j : Int) + 1) } := by
      intro s hs j hj
      have htrip := tripRows_trip hs
      rw [stagingSteps_eq, List.take_append_eq_append_take, length_assignStepsFrom,
        List.take_of_length_le (by rw [length_assignStepsFrom]; omega),
        List.foldl_append, take_assignStepsFrom]
      rw [foldl_assign_mem t (fun i => -((i : Int) + 1)) s htrip order 0 j horder hj]
      by_cases hjm : j < m - order.length
      · rw [if_pos hjm]
        have hjtake : (order.take (m - order.length)).get? j = some s.id := by
          rw [List.get?_take hjm]; exact hj
        have hndtake : (order.take (m - order.length)).Nodup :=
          (List.take_sublist _ order).nodup horder
        refine (foldl_assign_mem t (fun i => (i : Int)) _ ?_
          (order.take (m - order.length)) 0 j hndtake ?_).trans ?_
        · exact htrip
        · exact hjtake
        · have h0 : 0 + j = j := by omega
          rw [h0]
      · rw [if_neg hjm]
        refine (foldl_assign_not_mem t (fun i => (i : Int))
          { s with position := -(((0 + j : Nat) : Int) + 1) }
          (order.take (m - order.length)) 0 ?_).trans ?_
        · exact not_mem_take_of_get? horder hj hjm
        · have h0 : 0 + j = j := by omega
          rw [h0]
    intro x hx y hy hxy
    by_cases hxyeq : x = y
    · exact hxyeq
    exfalso
    obtain ⟨j1, hj1lt, hj1⟩ := hindex x hx
    obtain ⟨j2, hj2lt, hj2⟩ := hindex y hy
    have hidne : x.id ≠ y.id := fun hc => hxyeq (List.inj_on_of_nodup_map htid hx hy hc)
    have hjne : j1 ≠ j2 := by
      intro hc
      rw [hc, hj2] at hj1
      exact hidne (Option.some.inj hj1).symm
    simp only [Function.comp_apply] at hxy
    rw [hpf x hx j1 hj1, hpf y hy j2 hj2] at hxy
    by_cases h1 : j1 < m - order.length <;> by_cases h2 : j2 < m - order.length <;>
        simp only [h1, h2, if_true, if_false] at hxy <;> omega

/-- Witness for c3_reorder_permutation: reordering the trip A, B, C (ids
1, 2, 3) to the list [3, 1, 2] yields exactly that position-ordered sequence,
positions 0..2, and no intermediate UPDATE leaves two stops of the trip on the
same position. -/
theorem c3_reorder_permutation_witness :
    idsInPositionOrder 1 (reorderStops 1 (.arr [3, 1, 2]) tripABC).2.trip_stops = [3, 1, 2] ∧
    (∀ q : Int,
      (∃ s ∈ tripRows 1 (reorderStops 1 (.arr [3, 1, 2]) tripABC).2.trip_stops,
          s.position = q) ↔
        0 ≤ q ∧ q < (([3, 1, 2] : List Nat).length : Int)) ∧
    (∀ st ∈ reorderStates 1 [3, 1, 2] tripABC.trip_stops,
      ((tripRows 1 st).map Stop.position).Nodup) :=
  c3_reorder_permutation 1 [3, 1, 2] tripABC (by decide) (by decide) (by decide) (by decide)

/-- Upserting a segment changes only the segment table. -/
theorem upsertSegment_frame (g : Segment) (db : DB) :
    (upsertSegment g db).nextStopId = db.nextStopId ∧
    (upsertSegment g db).timeline_entries = db.timeline_entries ∧
    (upsertSegment g db).trip_stops = db.trip_stops := by
  rw [upsertSegment]; split <;> exact ⟨rfl, rfl, rfl⟩

/-- The loaded longitude only depends on the entry table and the stop row. -/
theorem stopLng_congr {db1 db2 : DB} (h : db1.timeline_entries = db2.timeline_entries)
    (s : Stop) : stopLng db1 s = stopLng db2 s := by
  cases hte : s.timeline_entry_id <;> simp [stopLng, hte, h]

/-- The loaded latitude only depends on the entry table and the stop row. -/
theorem stopLat_congr {db1 db2 : DB} (h : db1.timeline_entries = db2.timeline_entries)
    (s : Stop) : stopLat db1 s = stopLat db2 s := by
  cases hte : s.timeline_entry_id <;> simp [stopLat, hte, h]

/-- Upserting a missing key appends, so old rows survive. -/
theorem upsert_superset (g : Segment) (db : DB)
    (hc : segmentCached g.trip_id g.from_stop_id g.to_stop_id db = false) :
    ∀ h ∈ db.trip_route_segments, h ∈ (upsertSegment g db).trip_route_segments := by
  intro h hmem
  rw [upsertSegment, if_neg (by simp [hc])]
  exact List.mem_append_left _ hmem

/-- Upserting a missing key makes the key cached. -/
theorem upsert_cached (g : Segment) (db : DB)
    (hc : segmentCached g.trip_id g.from_stop_id g.to_stop_id db = false) :
    segmentCached g.trip_id g.from_stop_id g.to_stop_id (upsertSegment g db) = true := by
  rw [upsertSegment, if_neg (by simp [hc]), segmentCached, List.any_eq_true]
  exact ⟨g, List.mem_append_right _ (by simp), by simp⟩

/-- Every row of an upserted table is an old row or the upserted segment. -/
theorem upsert_mem_or (g : Segment) (db : DB) (h : Segment)
    (hmem : h ∈ (upsertSegment g db).trip_route_segments) :
    h ∈ db.trip_route_segments ∨ h = g := by
  rw [upsertSegment] at hmem
  split at hmem
  · rw [List.mem_map] at hmem
    obtain ⟨h0, hh0, heq⟩ := hmem
    by_cases hcond : (h0.trip_id == g.trip_id && h0.from_stop_id == g.from_stop_id &&
        h0.to_stop_id == g.to_stop_id) = true
    · right
      rw [← heq]
      simp [hcond]
    · left
      rw [← heq]
      simpa [hcond] using hh0
  · rcases List.mem_append.mp hmem with h1 | h1
    · exact Or.inl h1
    · exact Or.inr (List.mem_singleton.mp h1)

/-- A cache hit survives any table extension. -/
theorem segmentCached_mono {t x y : Nat} {db db2 : DB}
    (h : segmentCached t x y db = true)
    (hsub : ∀ g ∈ db.trip_route_segments, g ∈ db2.trip_route_segments) :
    segmentCached t x y db2 = true := by
  rw [segmentCached, List.any_eq_true] at h ⊢
  obtain ⟨g, hg, hmatch⟩ := h
  exact ⟨g, hsub g hg, hmatch⟩

/-- With force unset, a cached pair is skipped without a provider call. -/
theorem genLoop_skip (provider : Provider) (t : Nat) (a b : Stop)
    (rest : List (Stop × Stop)) (db : DB) (calls : List (Nat × Nat))
    (h : segmentCached t a.id b.id db = true) :
    genLoop provider false t ((a, b) :: rest) db calls =
      genLoop provider false t rest db calls := by
  simp [genLoop, h]

/-- An uncached pair whose provider call fails aborts the loop with the
provider's error message. -/
theorem genLoop_err (provider : Provider) (force : Bool) (t : Nat) (a b : Stop)
    (rest : List (Stop × Stop)) (db : DB) (calls : List (Nat × Nat)) (msg : String)
    (hc : (!force && segmentCached t a.id b.id db) = false)
    (herr : fetchRouteSegment provider (stopLng db a) (stopLat db a)
      (stopLng db b) (stopLat db b) = Except.error msg) :
    genLoop provider force t ((a, b) :: rest) db calls =
      ⟨db, calls ++ [(a.id, b.id)], some (.routeUnavailable msg)⟩ := by
  simp [genLoop, hc, herr]

/-- An uncached pair whose provider call succeeds is upserted and the loop
continues. -/
theorem genLoop_ok (provider : Provider) (force : Bool) (t : Nat) (a b : Stop)
    (rest : List (Stop × Stop)) (db : DB) (calls : List (Nat × Nat)) (r : Route)
    (hc : (!force && segmentCached t a.id b.id db) = false)
    (hok : fetchRouteSegment provider (stopLng db a) (stopLat db a)
      (stopLng db b) (stopLat db b) = Except.ok r) :
    genLoop provider force t ((a, b) :: rest) db calls =
      genLoop provider force t rest
        (upsertSegment ⟨t, a.id, b.id, r.geomTag, r.distance, r.duration⟩ db)
        (calls ++ [(a.id, b.id)]) := by
  simp [genLoop, hc, hok]

/-- The route loop only ever touches the segment table. -/
theorem genLoop_frame (provider : Provider) (force : Bool) (t : Nat) :
    ∀ (ps : List (Stop × Stop)) (db : DB) (calls : List (Nat × Nat)),
      (genLoop provider force t ps db calls).db.nextStopId = db.nextStopId ∧
      (genLoop provider force t ps db calls).db.timeline_entries = db.timeline_entries ∧
      (genLoop provider force t ps db calls).db.trip_stops = db.trip_stops := by
  intro ps
  induction ps with
  | nil => intro db calls; exact ⟨rfl, rfl, rfl⟩
  | cons p rest ih =>
      intro db calls
      obtain ⟨a, b⟩ := p
      rw [genLoop]
      split
      · exact ih db calls
      · split
        · exact ⟨rfl, rfl, rfl⟩
        · obtain ⟨h1, h2, h3⟩ := ih (upsertSegment _ db) (calls ++ [(a.id, b.id)])
          obtain ⟨u1, u2, u3⟩ := upsertSegment_frame
            ⟨t, a.id, b.id, _, _, _⟩ db
          exact ⟨h1.trans u1, h2.trans u2, h3.trans u3⟩

/-- With force unset, the route loop never deletes a segment. -/
theorem genLoop_superset (provider : Provider) (t : Nat) :
    ∀ (ps : List (Stop × Stop)) (db : DB) (calls : List (Nat × Nat)),
      ∀ g ∈ db.trip_route_segments,
        g ∈ (genLoop provider false t ps db calls).db.trip_route_segments := by
  intro ps
  induction ps with
  | nil => intro db calls g hg; exact hg
  | cons p rest ih =>
      intro db calls g hg
      obtain ⟨a, b⟩ := p
      by_cases hcached : segmentCached t a.id b.id db = true
      · rw [genLoop_skip provider t a b rest db calls hcached]
        exact ih db calls g hg
      · rw [Bool.not_eq_true] at hcached
        cases hfetch : fetchRouteSegment provider (stopLng db a) (stopLat db a)
            (stopLng db b) (stopLat db b) with
        | error msg =>
            rw [genLoop_err provider false t a b rest db calls msg
              (by simp [hcached]) hfetch]
            exact hg
        | ok r =>
            rw [genLoop_ok provider false t a b rest db calls r
              (by simp [hcached]) hfetch]
            exact ih _ _ g (upsert_superset _ db hcached g hg)

/-- With force unset, a successful run leaves every processed pair cached. -/
theorem genLoop_success_cached (provider : Provider) (t : Nat) :
    ∀ (ps : List (Stop × Stop)) (db : DB) (calls : List (Nat × Nat)),
      (genLoop provider false t ps db calls).err = none →
      ∀ p ∈ ps, segmentCached t p.1.id p.2.id
        (genLoop provider false t ps db calls).db = true := by
  intro ps
  induction ps with
  | nil => intro db calls _ p hp; cases hp
  | cons q rest ih =>
      intro db calls hnone p hp
      obtain ⟨a, b⟩ := q
      by_cases hcached : segmentCached t a.id b.id db = true
      · rw [genLoop_skip provider t a b rest db calls hcached] at hnone ⊢
        rcases List.mem_cons.mp hp with rfl | hp'
        · exact segmentCached_mono hcached (genLoop_superset provider t rest db calls)
        · exact ih db calls hnone p hp'
      · rw [Bool.not_eq_true] at hcached
        cases hfetch : fetchRouteSegment provider (stopLng db a) (stopLat db a)
            (stopLng db b) (stopLat db b) with
        | error msg =>
            rw [genLoop_err provider false t a b rest db calls msg
              (by simp [hcached]) hfetch] at hnone
            simp at hnone
        | ok r =>
            rw [genLoop_ok provider false t a b rest db calls r
              (by simp [hcached]) hfetch] at hnone ⊢
            rcases List.mem_cons.mp hp with rfl | hp'
            · exact segmentCached_mono (upsert_cached _ db hcached)
                (genLoop_superset provider t rest _ _)
            · exact ih _ _ hnone p hp'

/-- With force unset, a run over fully cached pairs does nothing: no provider
call, no database change, no error. -/
theorem genLoop_all_cached (provider : Provider) (t : Nat) :
    ∀ (ps : List (Stop × Stop)) (db : DB) (calls : List (Nat × Nat)),
      (∀ p ∈ ps, segmentCached t p.1.id p.2.id db = true) →
      genLoop provider false t ps db calls = ⟨db, calls, none⟩ := by
  intro ps
  induction ps with
  | nil => intro db calls _; rfl
  | cons q rest ih =>
      intro db calls hall
      obtain ⟨a, b⟩ := q
      rw [genLoop_skip provider t a b rest db calls (hall (a, b) (by simp))]
      exact ih db calls (fun p hp => hall p (List.mem_cons_of_mem _ hp))

/-- With force unset, a cached front block of pairs is skipped entirely. -/
theorem genLoop_skip_front (provider : Provider) (t : Nat) :
    ∀ (ps1 : List (Stop × Stop)) (db : DB) (calls : List (Nat × Nat))
      (rest : List (Stop × Stop)),
      (∀ p ∈ ps1, segmentCached t p.1.id p.2.id db = true) →
      genLoop provider false t (ps1 ++ rest) db calls =
        genLoop provider false t rest db calls := by
  intro ps1
  induction ps1 with
  | nil => intro db calls rest _; rfl
  | cons q ps1' ih =>
      intro db calls rest hall
      obtain ⟨a, b⟩ := q
      rw [List.cons_append,
        genLoop_skip provider t a b _ db calls (hall (a, b) (by simp))]
      exact ih db calls rest (fun p hp => hall p (List.mem_cons_of_mem _ hp))

/-- The call log only ever grows. -/
theorem genLoop_calls_extend (provider : Provider) (force : Bool) (t : Nat) :
    ∀ (ps : List (Stop × Stop)) (db : DB) (calls : List (Nat × Nat)),
      ∃ more, (genLoop provider force t ps db calls).calls = calls ++ more := by
  intro ps
  induction ps with
  | nil => intro db calls; exact ⟨[], by simp [genLoop]⟩
  | cons q rest ih =>
      intro db calls
      obtain ⟨a, b⟩ := q
      rw [genLoop]
      split
      · exact ih db calls
      · split
        · exact ⟨[(a.id, b.id)], rfl⟩
        · obtain ⟨more, hmore⟩ := ih _ (calls ++ [(a.id, b.id)])
          exact ⟨(a.id, b.id) :: more, by rw [hmore]; simp⟩

/-- Running a front block of pairs that are each cached or fetchable reduces
the loop to the remaining pairs against a database that extends the old one by
segments keyed by front-block pairs only, with every front-block pair cached
afterwards. -/
theorem genLoop_ok_front (provider : Provider) (t : Nat) :
    ∀ (ps1 : List (Stop × Stop)) (db : DB) (calls : List (Nat × Nat)),
      (∀ p ∈ ps1, segmentCached t p.1.id p.2.id db = true ∨
        ∃ r, fetchRouteSegment provider (stopLng db p.1) (stopLat db p.1)
          (stopLng db p.2) (stopLat db p.2) = Except.ok r) →
      ∀ rest, ∃ db' calls',
        genLoop provider false t (ps1 ++ rest) db calls =
          genLoop provider false t rest db' (calls ++ calls') ∧
        db'.nextStopId = db.nextStopId ∧
        db'.timeline_entries = db.timeline_entries ∧
        db'.trip_stops = db.trip_stops ∧
        (∀ g ∈ db.trip_route_segments, g ∈ db'.trip_route_segments) ∧
        (∀ g ∈ db'.trip_route_segments, g ∈ db.trip_route_segments ∨
          ∃ p ∈ ps1, g.trip_id = t ∧ g.from_stop_id = p.1.id ∧ g.to_stop_id = p.2.id) ∧
        (∀ p ∈ ps1, segmentCached t p.1.id p.2.id db' = true) := by
  intro ps1
  induction ps1 with
  | nil =>
      intro db calls _ rest
      refine ⟨db, [], by simp, rfl, rfl, rfl, fun g hg => hg, fun g hg => Or.inl hg,
        fun p hp => absurd hp (List.not_mem_nil p)⟩
  | cons q ps1' ih =>
      intro db calls hall rest
      obtain ⟨a, b⟩ := q
      by_cases hcached : segmentCached t a.id b.id db = true
      · rw [List.cons_append, genLoop_skip provider t a b _ db calls hcached]
        obtain ⟨db', calls', heq, h1, h2, h3, hsup, hprov, hcach⟩ :=
          ih db calls (fun p hp => hall p (List.mem_cons_of_mem _ hp)) rest
        refine ⟨db', calls', heq, h1, h2, h3, hsup, ?_, ?_⟩
        · intro g hg
          rcases hprov g hg with hg' | ⟨p, hp, hk⟩
          · exact Or.inl hg'
          · exact Or.inr ⟨p, List.mem_cons_of_mem _ hp, hk⟩
        · intro p hp
          rcases List.mem_cons.mp hp with rfl | hp'
          · exact segmentCached_mono hcached hsup
          · exact hcach p hp'
      · rw [Bool.not_eq_true] at hcached
        obtain ⟨r, hok⟩ := (hall (a, b) (by simp)).resolve_left (by simp [hcached])
        rw [List.cons_append, genLoop_ok provider false t a b _ db calls r
          (by simp [hcached]) hok]
        set G : Segment := ⟨t, a.id, b.id, r.geomTag, r.distance, r.duration⟩ with hG
        have hGkey : G.trip_id = t ∧ G.from_stop_id = a.id ∧ G.to_stop_id = b.id :=
          ⟨rfl, rfl, rfl⟩
        have hGup : segmentCached G.trip_id G.from_stop_id G.to_stop_id db = false :=
          hcached
        have hsup0 := upsert_superset G db hGup
        have hall' : ∀ p ∈ ps1', segmentCached t p.1.id p.2.id (upsertSegment G db) = true ∨
            ∃ r', fetchRouteSegment provider
              (stopLng (upsertSegment G db) p.1) (stopLat (upsertSegment G db) p.1)
              (stopLng (upsertSegment G db) p.2) (stopLat (upsertSegment G db) p.2) =
                Except.ok r' := by
          intro p hp
          rcases hall p (List.mem_cons_of_mem _ hp) with hc | ⟨r', hr'⟩
          · exact Or.inl (segmentCached_mono hc hsup0)
          · refine Or.inr ⟨r', ?_⟩
            have he : (upsertSegment G db).timeline_entries = db.timeline_entries :=
              (upsertSegment_frame G db).2.1
            rw [stopLng_congr he, stopLat_congr he, stopLng_congr he, stopLat_congr he]
            exact hr'
        obtain ⟨db', calls', heq, h1, h2, h3, hsup, hprov, hcach⟩ :=
          ih (upsertSegment G db) (calls ++ [(a.id, b.id)]) hall' rest
        obtain ⟨u1, u2, u3⟩ := upsertSegment_frame G db
        refine ⟨db', (a.id, b.id) :: calls', ?_, h1.trans u1, h2.trans u2, h3.trans u3,
          ?_, ?_, ?_⟩
        · rw [heq]
          congr 1
          simp
        · intro g hg
          exact hsup g (hsup0 g hg)
        · intro g hg
          rcases hprov g hg with hg' | ⟨p, hp, hk⟩
          · rcases upsert_mem_or G db g hg' with hg'' | rfl
            · exact Or.inl hg''
            · exact Or.inr ⟨(a, b), by simp, hGkey⟩
          · exact Or.inr ⟨p, List.mem_cons_of_mem _ hp, hk⟩
        · intro p hp
          rcases List.mem_cons.mp hp with rfl | hp'
          · exact segmentCached_mono (upsert_cached G db hGup) hsup
          · exact hcach p hp'

/-- The loaded stop list only depends on the stop table. -/
theorem loadStops_congr {t : Nat} {db1 db2 : DB} (h : db1.trip_stops = db2.trip_stops) :
    loadStops t db1 = loadStops t db2 := by
  rw [loadStops, loadStops, h]

/-- C8: when a force-unset route generation completes successfully and the trip
is not mutated afterwards, a second force-unset call makes zero provider calls,
leaves the whole database (in particular the segment cache) unchanged, and
succeeds. -/
theorem c8_generate_routes_idempotent (provider : Provider) (t : Nat) (db : DB)
    (hok : (generateRoutes provider false t db).err = none) :
    (generateRoutes provider false t (generateRoutes provider false t db).db).calls = [] ∧
    (generateRoutes provider false t (generateRoutes provider false t db).db).db =
      (generateRoutes provider false t db).db ∧
    (generateRoutes provider false t (generateRoutes provider false t db).db).err = none := by
  by_cases hn : (loadStops t db).length < 2
  · exfalso
    simp [generateRoutes, hn] at hok
  · have hrun1 : generateRoutes provider false t db =
        genLoop provider false t (consecutivePairs (loadStops t db)) db [] := by
      simp [generateRoutes, hn]
    have hcached : ∀ p ∈ consecutivePairs (loadStops t db),
        segmentCached t p.1.id p.2.id
          (genLoop provider false t (consecutivePairs (loadStops t db)) db []).db = true := by
      intro p hp
      refine genLoop_success_cached provider t _ db [] ?_ p hp
      rw [← hrun1]
      exact hok
    have hstops : (genLoop provider false t
        (consecutivePairs (loadStops t db)) db []).db.trip_stops = db.trip_stops :=
      (genLoop_frame provider false t _ db []).2.2
    have hload : loadStops t
        (genLoop provider false t (consecutivePairs (loadStops t db)) db []).db =
        loadStops t db := loadStops_congr hstops
    have hrun2 : generateRoutes provider false t
        (genLoop provider false t (consecutivePairs (loadStops t db)) db []).db =
        genLoop provider false t (consecutivePairs (loadStops t db))
          (genLoop provider false t (consecutivePairs (loadStops t db)) db []).db [] := by
      simp [generateRoutes, hload, hn]
    rw [hrun1, hrun2, genLoop_all_cached provider t _ _ [] hcached]
    exact ⟨rfl, rfl, rfl⟩

/-- Witness for c8_generate_routes_idempotent on the routed trip A, B, C. -/
theorem c8_generate_routes_idempotent_witness :
    (generateRoutes okProvider false 1
      (generateRoutes okProvider false 1 tripABC).db).calls = [] ∧
    (generateRoutes okProvider false 1
      (generateRoutes okProvider false 1 tripABC).db).db =
      (generateRoutes okProvider false 1 tripABC).db ∧
    (generateRoutes okProvider false 1
      (generateRoutes okProvider false 1 tripABC).db).err = none :=
  c8_generate_routes_idempotent okProvider 1 tripABC (by decide)

/-- A force run over pairs whose provider calls all succeed calls the provider
once per pair, in order, and succeeds. -/
theorem genLoop_force_all_ok (provider : Provider) (t : Nat) :
    ∀ (ps : List (Stop × Stop)) (db : DB) (calls : List (Nat × Nat)),
      (∀ p ∈ ps, ∃ r, fetchRouteSegment provider (stopLng db p.1) (stopLat db p.1)
        (stopLng db p.2) (stopLat db p.2) = Except.ok r) →
      (genLoop provider true t ps db calls).calls =
        calls ++ ps.map (fun p => (p.1.id, p.2.id)) ∧
      (genLoop provider true t ps db calls).err = none := by
  intro ps
  induction ps with
  | nil => intro db calls _; exact ⟨by simp [genLoop], rfl⟩
  | cons q rest ih =>
      intro db calls hall
      obtain ⟨a, b⟩ := q
      obtain ⟨r, hok⟩ := hall (a, b) (by simp)
      rw [genLoop_ok provider true t a b rest db calls r (by simp) hok]
      have hall' : ∀ p ∈ rest, ∃ r', fetchRouteSegment provider
          (stopLng (upsertSegment ⟨t, a.id, b.id, r.geomTag, r.distance, r.duration⟩ db) p.1)
          (stopLat (upsertSegment ⟨t, a.id, b.id, r.geomTag, r.distance, r.duration⟩ db) p.1)
          (stopLng (upsertSegment ⟨t, a.id, b.id, r.geomTag, r.distance, r.duration⟩ db) p.2)
          (stopLat (upsertSegment ⟨t, a.id, b.id, r.geomTag, r.distance, r.duration⟩ db) p.2) =
            Except.ok r' := by
        intro p hp
        obtain ⟨r', hr'⟩ := hall p (List.mem_cons_of_mem _ hp)
        refine ⟨r', ?_⟩
        have he := (upsertSegment_frame
          ⟨t, a.id, b.id, r.geomTag, r.distance, r.duration⟩ db).2.1
        rw [stopLng_congr he, stopLat_congr he, stopLng_congr he, stopLat_congr he]
        exact hr'
      obtain ⟨hc, herr⟩ := ih _ (calls ++ [(a.id, b.id)]) hall'
      exact ⟨by rw [hc]; simp, herr⟩

/-- C9: with fewer than two stops, a force route generation fails with
ValidationError before any provider call or database change; with at least two
stops and a provider that succeeds on every consecutive pair, it calls the
provider exactly once per consecutive pair in position order, regardless of
what was cached before the call. -/
theorem c9_generate_routes_force (provider : Provider) (t : Nat) (db : DB) :
    ((loadStops t db).length < 2 →
      generateRoutes provider true t db =
        ⟨db, [], some (.validation "Need at least 2 stops to generate routes")⟩) ∧
    (¬ (loadStops t db).length < 2 →
      (∀ p ∈ consecutivePairs (loadStops t db), ∃ r,
        fetchRouteSegment provider (stopLng db p.1) (stopLat db p.1)
          (stopLng db p.2) (stopLat db p.2) = Except.ok r) →
      (generateRoutes provider true t db).calls =
        (consecutivePairs (loadStops t db)).map (fun p => (p.1.id, p.2.id)) ∧
      (generateRoutes provider true t db).err = none) := by
  constructor
  · intro hn
    simp [generateRoutes, hn]
  · intro hn hall
    have hrun : generateRoutes provider true t db =
        genLoop provider true t (consecutivePairs (loadStops t db))
          { db with trip_route_segments :=
              db.trip_route_segments.filter (fun g => !(g.trip_id == t)) } [] := by
      simp [generateRoutes, hn]
    have hall1 : ∀ p ∈ consecutivePairs (loadStops t db), ∃ r,
        fetchRouteSegment provider
          (stopLng { db with trip_route_segments :=
            db.trip_route_segments.filter (fun g => !(g.trip_id == t)) } p.1)
          (stopLat { db with trip_route_segments :=
            db.trip_route_segments.filter (fun g => !(g.trip_id == t)) } p.1)
          (stopLng { db with trip_route_segments :=
            db.trip_route_segments.filter (fun g => !(g.trip_id == t)) } p.2)
          (stopLat { db with trip_route_segments :=
            db.trip_route_segments.filter (fun g => !(g.trip_id == t)) } p.2) =
              Except.ok r := by
      intro p hp
      obtain ⟨r, hr⟩ := hall p hp
      exact ⟨r, by
        rw [stopLng_congr rfl, stopLat_congr rfl, stopLng_congr rfl, stopLat_congr rfl]
        exact hr⟩
    obtain ⟨hc, herr⟩ := genLoop_force_all_ok provider t
      (consecutivePairs (loadStops t db)) _ [] hall1
    rw [hrun]
    exact ⟨by rw [hc]; simp, herr⟩

/-- Witness for c9_generate_routes_force: a force run on the routed trip
A, B, C re-fetches both adjacent pairs although both were cached. -/
theorem c9_generate_routes_force_witness :
    (generateRoutes okProvider true 1 tripABCRouted).calls =
      (consecutivePairs (loadStops 1 tripABCRouted)).map (fun p => (p.1.id, p.2.id)) ∧
    (generateRoutes okProvider true 1 tripABCRouted).err = none :=
  (c9_generate_routes_force okProvider 1 tripABCRouted).2 (by decide)
    (fun p _ => ⟨⟨7, 100, 60⟩, rfl⟩)

/-- C7 (amended): when, walking the consecutive pairs in position order, every
pair before some pair pk is cached or fetchable and pk is uncached with a
failing provider call, the request aborts at pk with a RouteUnavailable error
carrying the provider's failure message (and nothing identifying the pair);
segments fetched earlier in the run stay cached (no rollback), no segment is
written for pk or any later pair, and a subsequent force-unset call skips the
now-cached earlier pairs and issues its first provider call for pk. -/
theorem c7_route_failure (provider provider2 : Provider) (t : Nat) (db : DB)
    (ps1 ps2 : List (Stop × Stop)) (pk : Stop × Stop) (msg : String)
    (hpairs : consecutivePairs (loadStops t db) = ps1 ++ pk :: ps2)
    (hlen2 : ¬ (loadStops t db).length < 2)
    (hok1 : ∀ p ∈ ps1, segmentCached t p.1.id p.2.id db = true ∨
      ∃ r, fetchRouteSegment provider (stopLng db p.1) (stopLat db p.1)
        (stopLng db p.2) (stopLat db p.2) = Except.ok r)
    (hkmiss : segmentCached t pk.1.id pk.2.id db = false)
    (hkfail : fetchRouteSegment provider (stopLng db pk.1) (stopLat db pk.1)
      (stopLng db pk.2) (stopLat db pk.2) = Except.error msg)
    (hknotin : ∀ p ∈ ps1, ¬(pk.1.id = p.1.id ∧ pk.2.id = p.2.id)) :
    (generateRoutes provider false t db).err = some (.routeUnavailable msg) ∧
    (∀ g ∈ db.trip_route_segments,
      g ∈ (generateRoutes provider false t db).db.trip_route_segments) ∧
    (∀ p ∈ ps1, segmentCached t p.1.id p.2.id
      (generateRoutes provider false t db).db = true) ∧
    segmentCached t pk.1.id pk.2.id (generateRoutes provider false t db).db = false ∧
    (∀ g ∈ (generateRoutes provider false t db).db.trip_route_segments,
      g ∈ db.trip_route_segments ∨
      ∃ p ∈ ps1, g.trip_id = t ∧ g.from_stop_id = p.1.id ∧ g.to_stop_id = p.2.id) ∧
    (generateRoutes provider2 false t
      (generateRoutes provider false t db).db).calls.head? =
        some (pk.1.id, pk.2.id) := by
  obtain ⟨ak, bk⟩ := pk
  have hrun1 : generateRoutes provider false t db =
      genLoop provider false t (ps1 ++ (ak, bk) :: ps2) db [] := by
    rw [← hpairs]
    simp [generateRoutes, hlen2]
  obtain ⟨db', calls', heq, h1, h2, h3, hsup, hprov, hcach⟩ :=
    genLoop_ok_front provider t ps1 db [] hok1 ((ak, bk) :: ps2)
  have hmiss' : segmentCached t ak.id bk.id db' = false := by
    by_contra hcon
    rw [Bool.not_eq_false, segmentCached, List.any_eq_true] at hcon
    obtain ⟨g, hg, hmatch⟩ := hcon
    simp only [Bool.and_eq_true, beq_iff_eq] at hmatch
    rcases hprov g hg with hgdb | ⟨p, hp, hk⟩
    · have hcdb : segmentCached t ak.id bk.id db = true := by
        rw [segmentCached, List.any_eq_true]
        exact ⟨g, hgdb, by simp [hmatch.1.1, hmatch.1.2, hmatch.2]⟩
      rw [hcdb] at hkmiss
      cases hkmiss
    · exact hknotin p hp ⟨hmatch.1.2.symm.trans hk.2.1, hmatch.2.symm.trans hk.2.2⟩
  have hkfail' : fetchRouteSegment provider (stopLng db' ak) (stopLat db' ak)
      (stopLng db' bk) (stopLat db' bk) = Except.error msg := by
    rw [stopLng_congr h2, stopLat_congr h2, stopLng_congr h2, stopLat_congr h2]
    exact hkfail
  have hfinal : generateRoutes provider false t db =
      ⟨db', ([] ++ calls') ++ [(ak.id, bk.id)], some (.routeUnavailable msg)⟩ := by
    rw [hrun1, heq,
      genLoop_err provider false t ak bk ps2 db' ([] ++ calls') msg
        (by simp [hmiss']) hkfail']
  rw [hfinal]
  refine ⟨rfl, hsup, hcach, hmiss', hprov, ?_⟩
  have hload' : loadStops t db' = loadStops t db := loadStops_congr h3
  have hpairs' : consecutivePairs (loadStops t db') = ps1 ++ (ak, bk) :: ps2 := by
    rw [hload', hpairs]
  have hrun2 : generateRoutes provider2 false t db' =
      genLoop provider2 false t (ps1 ++ (ak, bk) :: ps2) db' [] := by
    rw [← hpairs']
    simp [generateRoutes, hload', hlen2]
  show (generateRoutes provider2 false t db').calls.head? = some (ak.id, bk.id)
  rw [hrun2, genLoop_skip_front provider2 t ps1 db' [] ((ak, bk) :: ps2) hcach]
  cases hfetch2 : fetchRouteSegment provider2 (stopLng db' ak) (stopLat db' ak)
      (stopLng db' bk) (stopLat db' bk) with
  | error m2 =>
      rw [genLoop_err provider2 false t ak bk ps2 db' [] m2 (by simp [hmiss']) hfetch2]
      rfl
  | ok r2 =>
      rw [genLoop_ok provider2 false t ak bk ps2 db' [] r2 (by simp [hmiss']) hfetch2]
      obtain ⟨more, hmore⟩ := genLoop_calls_extend provider2 false t ps2 _
        ([] ++ [(ak.id, bk.id)])
      rw [hmore]
      rfl

/-- Witness for c7_route_failure: on trip A, B, C a provider failing at the
pair B to C leaves the fetched segment A to B cached, writes nothing for B to
C, surfaces the provider's message, and a retry with a healthy provider starts
at the pair B to C. -/
theorem c7_route_failure_witness :
    (generateRoutes (failAtLng 2) false 1 tripABC).err =
      some (.routeUnavailable "Mapbox Directions failed: NoRoute") ∧
    (∀ g ∈ tripABC.trip_route_segments,
      g ∈ (generateRoutes (failAtLng 2) false 1 tripABC).db.trip_route_segments) ∧
    (∀ p ∈ [((⟨1, 1, 0, none, some (1, 1), none⟩ : Stop),
        (⟨2, 1, 1, none, some (2, 2), none⟩ : Stop))],
      segmentCached 1 p.1.id p.2.id
        (generateRoutes (failAtLng 2) false 1 tripABC).db = true) ∧
    segmentCached 1 (⟨2, 1, 1, none, some (2, 2), none⟩ : Stop).id
      (⟨3, 1, 2, none, some (3, 3), none⟩ : Stop).id
      (generateRoutes (failAtLng 2) false 1 tripABC).db = false ∧
    (∀ g ∈ (generateRoutes (failAtLng 2) false 1 tripABC).db.trip_route_segments,
      g ∈ tripABC.trip_route_segments ∨
      ∃ p ∈ [((⟨1, 1, 0, none, some (1, 1), none⟩ : Stop),
          (⟨2, 1, 1, none, some (2, 2), none⟩ : Stop))],
        g.trip_id = 1 ∧ g.from_stop_id = p.1.id ∧ g.to_stop_id = p.2.id) ∧
    (generateRoutes okProvider false 1
      (generateRoutes (failAtLng 2) false 1 tripABC).db).calls.head? =
        some ((⟨2, 1, 1, none, some (2, 2), none⟩ : Stop).id,
          (⟨3, 1, 2, none, some (3, 3), none⟩ : Stop).id) :=
  c7_route_failure (failAtLng 2) okProvider 1 tripABC
    [(⟨1, 1, 0, none, some (1, 1), none⟩, ⟨2, 1, 1, none, some (2, 2), none⟩)] []
    (⟨2, 1, 1, none, some (2, 2), none⟩, ⟨3, 1, 2, none, some (3, 3), none⟩)
    "Mapbox Directions failed: NoRoute"
    (by decide) (by decide)
    (by
      intro p hp
      rw [List.mem_singleton] at hp
      subst hp
      exact Or.inr ⟨⟨7, 100, 60⟩, rfl⟩)
    (by decide) rfl
    (by
      intro p hp
      rw [List.mem_singleton] at hp
      subst hp
      decide)

/-- A duplicate-free integer list whose elements lie in 0..len-1 contains every
value of that interval. -/
theorem mem_of_nodup_bounded (l : List Int) (hnd : l.Nodup)
    (hb : ∀ x ∈ l, 0 ≤ x ∧ x < (l.length : Int)) :
    ∀ q : Int, 0 ≤ q → q < (l.length : Int) → q ∈ l := by
  intro q hq0 hql
  have hinj : ∀ x ∈ l, ∀ y ∈ l, x.toNat = y.toNat → x = y := by
    intro x hx y hy hxy
    have h1 := (hb x hx).1
    have h2 := (hb y hy).1
    omega
  have hnd' : (l.map Int.toNat).Nodup := List.Nodup.map_on hinj hnd
  have hsub : (l.map Int.toNat) ⊆ List.range l.length := by
    intro n hn
    rw [List.mem_map] at hn
    obtain ⟨x, hx, rfl⟩ := hn
    rw [List.mem_range]
    have := hb x hx
    omega
  have hperm : (l.map Int.toNat).Perm (List.range l.length) := by
    refine (List.subperm_of_subset hnd' hsub).perm_of_length_le ?_
    rw [List.length_range, List.length_map]
  have hq : q.toNat ∈ l.map Int.toNat := by
    rw [hperm.mem_iff, List.mem_range]
    omega
  rw [List.mem_map] at hq
  obtain ⟨x, hx, hxq⟩ := hq
  have hx0 := (hb x hx).1
  have hxe : x = q := by omega
  rwa [← hxe]

/-- The fold of max stays below any bound dominating the elements and the
base. -/
theorem foldr_max_le (l : List Int) (c : Int) (hc : -1 ≤ c)
    (h : ∀ x ∈ l, x ≤ c) : l.foldr max (-1) ≤ c := by
  induction l with
  | nil => simpa using hc
  | cons a rest ih =>
      rw [List.foldr_cons]
      exact max_le (h a (by simp)) (ih (fun x hx => h x (List.mem_cons_of_mem _ hx)))

/-- Under the contiguity invariant the appended position max + 1 equals the
stop count. -/
theorem maxPosition_inv (t : Nat) (db : DB) (hinv : PosInv t db) :
    maxPosition t db + 1 = ((tripRows t db.trip_stops).length : Int) := by
  obtain ⟨hnd, hb⟩ := hinv
  have hb' : ∀ x ∈ (tripRows t db.trip_stops).map Stop.position,
      0 ≤ x ∧ x < (((tripRows t db.trip_stops).map Stop.position).length : Int) := by
    intro x hx
    rw [List.mem_map] at hx
    obtain ⟨s, hs, rfl⟩ := hx
    rw [List.length_map]
    exact hb s hs
  by_cases hemp : tripRows t db.trip_stops = []
  · rw [maxPosition, hemp]
    simp
  · have hlen1 : 1 ≤ (tripRows t db.trip_stops).length := by
      rw [Nat.one_le_iff_ne_zero]
      simpa using hemp
    have hlenmap : ((tripRows t db.trip_stops).map Stop.position).length =
        (tripRows t db.trip_stops).length := List.length_map _ _
    have hmem : (((tripRows t db.trip_stops).length : Int) - 1) ∈
        (tripRows t db.trip_stops).map Stop.position := by
      refine mem_of_nodup_bounded _ hnd hb' _ ?_ ?_
      · omega
      · rw [hlenmap]; omega
    have hge := le_foldr_max _ _ hmem (-1)
    have hle : ((tripRows t db.trip_stops).map Stop.position).foldr max (-1) ≤
        ((tripRows t db.trip_stops).length : Int) - 1 := by
      refine foldr_max_le _ _ (by omega) ?_
      intro x hx
      have := (hb' x hx).2
      rw [hlenmap] at this
      omega
    rw [maxPosition]
    omega

/-- The insert shift never changes a row's id. -/
theorem shiftRow_id (t : Nat) (p : Int) (s : Stop) : (shiftRow t p s).id = s.id := by
  rw [shiftRow]; split <;> rfl

/-- The insert shift never changes a row's trip. -/
theorem shiftRow_trip (t : Nat) (p : Int) (s : Stop) :
    (shiftRow t p s).trip_id = s.trip_id := by
  rw [shiftRow]; split <;> rfl

/-- The insert shift on a row of the trip bumps positions at or above the
target. -/
theorem shiftRow_position (t : Nat) (p : Int) (s : Stop) (htrip : s.trip_id = t) :
    (shiftRow t p s).position = if p ≤ s.position then s.position + 1 else s.position := by
  rw [shiftRow]
  by_cases h : p ≤ s.position
  · rw [if_pos (by simp [htrip, h]), if_pos h]
  · rw [if_neg (by simp [htrip, h]), if_neg h]

/-- Removing the unique row with a given id shortens the table by one. -/
theorem filter_ne_length {l : List Stop} {sid : Nat}
    (hnd : (l.map Stop.id).Nodup) {s : Stop} (hs : s ∈ l) (hsid : s.id = sid) :
    (l.filter (fun x => !(x.id == sid))).length + 1 = l.length := by
  induction l with
  | nil => cases hs
  | cons a rest ih =>
      rw [List.map_cons, List.nodup_cons] at hnd
      rcases List.mem_cons.mp hs with rfl | hs'
      · rw [List.filter_cons, if_neg (by simp [hsid])]
        have hrest : rest.filter (fun x => !(x.id == sid)) = rest := by
          rw [List.filter_eq_self]
          intro x hx
          have : s.id ≠ x.id := fun hc => hnd.1 (hc ▸ List.mem_map_of_mem Stop.id hx)
          simp [hsid ▸ this.symm]
        rw [hrest, List.length_cons]
      · have hane : a.id ≠ sid := by
          intro hc
          refine hnd.1 ?_
          rw [hc, ← hsid]
          exact List.mem_map_of_mem Stop.id hs'
        rw [List.filter_cons, if_pos (by simp [hane]), List.length_cons,
          List.length_cons, ← ih hnd.2 hs']

/-- The inserted row's id is the serial value. -/
theorem newStopRow_id (t : Nat) (b : InsertBody) (id0 : Nat) (p : Int) :
    (newStopRow t b id0 p).id = id0 := by
  rw [newStopRow]; split <;> rfl

/-- The inserted row belongs to the target trip. -/
theorem newStopRow_trip (t : Nat) (b : InsertBody) (id0 : Nat) (p : Int) :
    (newStopRow t b id0 p).trip_id = t := by
  rw [newStopRow]; split <;> rfl

/-- The inserted row carries the chosen position. -/
theorem newStopRow_position (t : Nat) (b : InsertBody) (id0 : Nat) (p : Int) :
    (newStopRow t b id0 p).position = p := by
  rw [newStopRow]; split <;> rfl

/-- Appending a row of the trip extends the trip's row selection. -/
theorem tripRows_append_single (t : Nat) (l : List Stop) (new : Stop)
    (h : new.trip_id = t) : tripRows t (l ++ [new]) = tripRows t l ++ [new] := by
  rw [tripRows, tripRows, List.filter_append]
  congr 1
  simp [h]

/-- Both Stop Store invariants survive a well-formed insert request. -/
theorem insert_preserves_inv (t : Nat) (b : InsertBody) (db : DB)
    (hid : IdInv db) (hpos : PosInv t db)
    (hvalid : opValid t db (.insert b) = true) :
    IdInv (insertStop t b db).2 ∧ PosInv t (insertStop t b db).2 := by
  obtain ⟨hidnd, hidlt⟩ := hid
  obtain ⟨hpnd, hpb⟩ := hpos
  cases hbp : b.position with
  | none =>
      by_cases hsrc : hasSource b = true
      · have hres : (insertStop t b db).2 = { db with
            nextStopId := db.nextStopId + 1,
            trip_stops := db.trip_stops ++ [newStopRow t b db.nextStopId (maxPosition t db + 1)],
            trip_route_segments := (insertStop t b db).2.trip_route_segments } := by
          simp [insertStop, hbp, hsrc]
        rw [hres]
        have hmax := maxPosition_inv t db ⟨hpnd, hpb⟩
        have htr : tripRows t (db.trip_stops ++
            [newStopRow t b db.nextStopId (maxPosition t db + 1)]) =
            tripRows t db.trip_stops ++
              [newStopRow t b db.nextStopId (maxPosition t db + 1)] :=
          tripRows_append_single t _ _ (newStopRow_trip t b _ _)
        constructor
        · constructor
          · rw [List.map_append, List.nodup_append]
            refine ⟨hidnd, by simp, ?_⟩
            intro x hx
            have hxlt : x < db.nextStopId := by
              rw [List.mem_map] at hx
              obtain ⟨y, hy, rfl⟩ := hx
              exact hidlt y hy
            simp [newStopRow_id]
            omega
          · intro x hx
            show x.id < db.nextStopId + 1
            rcases List.mem_append.mp hx with hx' | hx'
            · have := hidlt x hx'
              omega
            · rw [List.mem_singleton] at hx'
              subst hx'
              rw [newStopRow_id]
              omega
        · constructor
          · rw [htr, List.map_append, List.nodup_append]
            refine ⟨hpnd, by simp, ?_⟩
            intro x hx
            rw [List.mem_map] at hx
            obtain ⟨y, hy, rfl⟩ := hx
            have := hpb y hy
            simp [newStopRow_position]
            omega
          · intro x hx
            rw [htr] at hx
            rw [htr, List.length_append]
            simp only [List.length_singleton]
            rcases List.mem_append.mp hx with hx' | hx'
            · have := hpb x hx'
              constructor
              · omega
              · push_cast
                omega
            · rw [List.mem_singleton] at hx'
              subst hx'
              rw [newStopRow_position]
              constructor
              · omega
              · push_cast
                omega
      · have hres : (insertStop t b db).2 = db := by
          rw [Bool.not_eq_true] at hsrc
          simp [insertStop, hbp, hsrc]
        rw [hres]
        exact ⟨⟨hidnd, hidlt⟩, ⟨hpnd, hpb⟩⟩
  | some p =>
      have hv : hasSource b = true ∧ 0 ≤ p ∧
          p ≤ ((tripRows t db.trip_stops).length : Int) := by
        rw [opValid, hbp] at hvalid
        simp only [Bool.and_eq_true, decide_eq_true_eq] at hvalid
        exact ⟨hvalid.1.1, hvalid.1.2, hvalid.2⟩
      obtain ⟨hsrc, h0p, hpl⟩ := hv
      have hres : (insertStop t b db).2 = { db with
          nextStopId := db.nextStopId + 1,
          trip_stops := shiftForInsert t p db.trip_stops ++ [newStopRow t b db.nextStopId p],
          trip_route_segments := (insertStop t b db).2.trip_route_segments } := by
        simp [insertStop, hbp, hsrc]
      rw [hres]
      have hshift_ids : (shiftForInsert t p db.trip_stops).map Stop.id =
          db.trip_stops.map Stop.id := by
        rw [shiftForInsert, List.map_map]
        exact List.map_congr_left (fun x _ => shiftRow_id t p x)
      have htr : tripRows t (shiftForInsert t p db.trip_stops ++
          [newStopRow t b db.nextStopId p]) =
          (tripRows t db.trip_stops).map (shiftRow t p) ++
            [newStopRow t b db.nextStopId p] := by
        rw [tripRows_append_single t _ _ (newStopRow_trip t b _ _), shiftForInsert,
          tripRows_map t _ (shiftRow_trip t p)]
      have hposchar : ∀ x ∈ tripRows t db.trip_stops,
          (shiftRow t p x).position =
            if p ≤ x.position then x.position + 1 else x.position :=
        fun x hx => shiftRow_position t p x (tripRows_trip hx)
      constructor
      · constructor
        · rw [List.map_append, hshift_ids, List.nodup_append]
          refine ⟨hidnd, by simp, ?_⟩
          intro x hx
          have hxlt : x < db.nextStopId := by
            rw [List.mem_map] at hx
            obtain ⟨y, hy, rfl⟩ := hx
            exact hidlt y hy
          simp [newStopRow_id]
          omega
        · intro x hx
          show x.id < db.nextStopId + 1
          rcases List.mem_append.mp hx with hx' | hx'
          · rw [shiftForInsert, List.mem_map] at hx'
            obtain ⟨y, hy, rfl⟩ := hx'
            rw [shiftRow_id]
            have := hidlt y hy
            omega
          · rw [List.mem_singleton] at hx'
            subst hx'
            rw [newStopRow_id]
            omega
      · constructor
        · rw [htr, List.map_append, List.nodup_append, List.map_map]
          refine ⟨?_, by simp, ?_⟩
          · refine List.Nodup.map_on ?_ (List.Nodup.of_map Stop.position hpnd)
            intro x hx y hy hxy
            simp only [Function.comp_apply] at hxy
            rw [hposchar x hx, hposchar y hy] at hxy
            refine List.inj_on_of_nodup_map hpnd hx hy ?_
            by_cases c1 : p ≤ x.position <;> by_cases c2 : p ≤ y.position
            · rw [if_pos c1, if_pos c2] at hxy; omega
            · rw [if_pos c1, if_neg c2] at hxy; omega
            · rw [if_neg c1, if_pos c2] at hxy; omega
            · rw [if_neg c1, if_neg c2] at hxy; omega
          · intro q hq
            rw [List.mem_map] at hq
            obtain ⟨x, hx, rfl⟩ := hq
            simp only [Function.comp_apply, List.map_cons, List.map_nil,
              List.mem_singleton, newStopRow_position]
            rw [hposchar x hx]
            have := hpb x hx
            by_cases c1 : p ≤ x.position
            · rw [if_pos c1]; omega
            · rw [if_neg c1]; omega
        · intro x hx
          rw [htr] at hx
          rw [htr, List.length_append, List.length_map]
          simp only [List.length_singleton]
          rcases List.mem_append.mp hx with hx' | hx'
          · rw [List.mem_map] at hx'
            obtain ⟨y, hy, rfl⟩ := hx'
            rw [shiftRow_position t p y (tripRows_trip hy)]
            have := hpb y hy
            by_cases c1 : p ≤ y.position
            · rw [if_pos c1]
              constructor
              · omega
              · push_cast
                omega
            · rw [if_neg c1]
              constructor
              · omega
              · push_cast
                omega
          · rw [List.mem_singleton] at hx'
            subst hx'
            rw [newStopRow_position]
            constructor
            · omega
            · push_cast
              omega

/-- Both Stop Store invariants survive a delete request. -/
theorem delete_preserves_inv (t sid : Nat) (db : DB)
    (hid : IdInv db) (hpos : PosInv t db) :
    IdInv (deleteStop t sid db).2 ∧ PosInv t (deleteStop t sid db).2 := by
  obtain ⟨hidnd, hidlt⟩ := hid
  obtain ⟨hpnd, hpb⟩ := hpos
  cases hfind : db.trip_stops.find? (fun s => s.id == sid && s.trip_id == t) with
  | none =>
      have hres : (deleteStop t sid db).2 = db := by rw [deleteStop, hfind]
      rw [hres]
      exact ⟨⟨hidnd, hidlt⟩, ⟨hpnd, hpb⟩⟩
  | some s =>
      have hsmem := List.mem_of_find?_eq_some hfind
      have hsp := List.find?_some hfind
      simp only [Bool.and_eq_true, beq_iff_eq] at hsp
      obtain ⟨hsid, hstrip⟩ := hsp
      have hsrows : s ∈ tripRows t db.trip_stops :=
        List.mem_filter.mpr ⟨hsmem, by simp [hstrip]⟩
      have hres : (deleteStop t sid db).2 = { db with
          trip_stops := (db.trip_stops.filter (fun x => !(x.id == sid))).map (fun x =>
            if x.trip_id == t && decide (s.position < x.position) then
              { x with position := x.position - 1 } else x),
          trip_route_segments := db.trip_route_segments.filter (fun g =>
            !(g.from_stop_id == sid || g.to_stop_id == sid)) } := by
        rw [deleteStop, hfind]
      rw [hres]
      have hdid : ∀ x : Stop, (if x.trip_id == t && decide (s.position < x.position) then
          { x with position := x.position - 1 } else x).id = x.id := by
        intro x; split <;> rfl
      have hdtrip : ∀ x : Stop, (if x.trip_id == t && decide (s.position < x.position) then
          { x with position := x.position - 1 } else x).trip_id = x.trip_id := by
        intro x; split <;> rfl
      have hLid : ((tripRows t db.trip_stops).map Stop.id).Nodup :=
        ((List.filter_sublist _).map Stop.id).nodup hidnd
      have hLnd : (tripRows t db.trip_stops).Nodup := List.Nodup.of_map Stop.id hLid
      have hlen2 : ((tripRows t db.trip_stops).filter
          (fun x => !(x.id == sid))).length + 1 = (tripRows t db.trip_stops).length :=
        filter_ne_length hLid hsrows hsid
      have htr2 : tripRows t ((db.trip_stops.filter (fun x => !(x.id == sid))).map (fun x =>
          if x.trip_id == t && decide (s.position < x.position) then
            { x with position := x.position - 1 } else x)) =
          ((tripRows t db.trip_stops).filter (fun x => !(x.id == sid))).map (fun x =>
            if x.trip_id == t && decide (s.position < x.position) then
              { x with position := x.position - 1 } else x) := by
        rw [tripRows_map t _ hdtrip, tripRows, tripRows, List.filter_comm]
      have hmemL : ∀ x ∈ (tripRows t db.trip_stops).filter (fun y => !(y.id == sid)),
          x ∈ tripRows t db.trip_stops ∧ x.id ≠ sid ∧ x.position ≠ s.position := by
        intro x hx
        rw [List.mem_filter] at hx
        have hxid : x.id ≠ sid := by simpa using hx.2
        refine ⟨hx.1, hxid, ?_⟩
        intro hc
        have hxe : x = s := List.inj_on_of_nodup_map hpnd hx.1 hsrows hc
        exact hxid (hxe ▸ hsid)
      have hdpos : ∀ x ∈ tripRows t db.trip_stops,
          (if x.trip_id == t && decide (s.position < x.position) then
            { x with position := x.position - 1 } else x).position =
          if s.position < x.position then x.position - 1 else x.position := by
        intro x hx
        have htx := tripRows_trip hx
        by_cases c : s.position < x.position
        · rw [if_pos (by simp [htx, c]), if_pos c]
        · rw [if_neg (by simp [htx, c]), if_neg c]
      constructor
      · constructor
        · rw [List.map_map]
          have : (db.trip_stops.filter (fun x => !(x.id == sid))).map
              (Stop.id ∘ fun x => if x.trip_id == t && decide (s.position < x.position) then
                { x with position := x.position - 1 } else x) =
              (db.trip_stops.filter (fun x => !(x.id == sid))).map Stop.id :=
            List.map_congr_left (fun x _ => hdid x)
          rw [this]
          exact ((List.filter_sublist _).map Stop.id).nodup hidnd
        · intro x hx
          show x.id < db.nextStopId
          rw [List.mem_map] at hx
          obtain ⟨y, hy, rfl⟩ := hx
          rw [hdid]
          rw [List.mem_filter] at hy
          exact hidlt y hy.1
      · constructor
        · rw [htr2, List.map_map]
          refine List.Nodup.map_on ?_ ((List.filter_sublist _).nodup hLnd)
          intro x hx y hy hxy
          obtain ⟨hxL, hxid, hxpos⟩ := hmemL x hx
          obtain ⟨hyL, hyid, hypos⟩ := hmemL y hy
          simp only [Function.comp_apply] at hxy
          rw [hdpos x hxL, hdpos y hyL] at hxy
          refine List.inj_on_of_nodup_map hpnd hxL hyL ?_
          by_cases c1 : s.position < x.position <;> by_cases c2 : s.position < y.position
          · rw [if_pos c1, if_pos c2] at hxy; omega
          · rw [if_pos c1, if_neg c2] at hxy; omega
          · rw [if_neg c1, if_pos c2] at hxy; omega
          · rw [if_neg c1, if_neg c2] at hxy; omega
        · intro x hx
          rw [htr2] at hx
          rw [htr2, List.length_map]
          rw [List.mem_map] at hx
          obtain ⟨y, hy, rfl⟩ := hx
          obtain ⟨hyL, hyid, hypos⟩ := hmemL y hy
          rw [hdpos y hyL]
          have hyb := hpb y hyL
          have hsb := hpb s hsrows
          have hlen2' : (((tripRows t db.trip_stops).filter
              (fun x => !(x.id == sid))).length : Int) + 1 =
              ((tripRows t db.trip_stops).length : Int) := by
            push_cast [← hlen2]
            ring
          by_cases c1 : s.position < y.position
          · rw [if_pos c1]
            constructor <;> omega
          · rw [if_neg c1]
            constructor <;> omega

/-- Both Stop Store invariants survive any sequence of well-formed requests. -/
theorem applyOps_preserves (t : Nat) : ∀ (ops : List TripOp) (db : DB),
    IdInv db → PosInv t db → opsValid t db ops = true →
    IdInv (applyOps t db ops) ∧ PosInv t (applyOps t db ops) := by
  intro ops
  induction ops with
  | nil => intro db h1 h2 _; exact ⟨h1, h2⟩
  | cons op rest ih =>
      intro db h1 h2 hv
      rw [opsValid, Bool.and_eq_true] at hv
      obtain ⟨hv1, hv2⟩ := hv
      cases op with
      | insert b =>
          obtain ⟨h1', h2'⟩ := insert_preserves_inv t b db h1 h2 hv1
          exact ih _ h1' h2' hv2
      | del sid =>
          obtain ⟨h1', h2'⟩ := delete_preserves_inv t sid db h1 h2
          exact ih _ h1' h2' hv2

/-- C1 (amended): starting from a trip with no stops, any sequence of insert
and delete requests in which every explicit-position insert also supplies a
location source and a position inside 0..count keeps the trip's position set
exactly 0..N-1 where N is the stop count: no gaps and no duplicates. -/
theorem c1_positions_contiguous (t : Nat) (db : DB) (ops : List TripOp)
    (hidnd : (db.trip_stops.map Stop.id).Nodup)
    (hidlt : ∀ s ∈ db.trip_stops, s.id < db.nextStopId)
    (hempty : tripRows t db.trip_stops = [])
    (hvalid : opsValid t db ops = true) :
    ∀ q : Int,
      (∃ s ∈ (applyOps t db ops).trip_stops, s.trip_id = t ∧ s.position = q) ↔
        0 ≤ q ∧ q < ((tripRows t (applyOps t db ops).trip_stops).length : Int) := by
  have hpos0 : PosInv t db := by
    constructor
    · rw [hempty]
      simp
    · intro s hs
      rw [hempty] at hs
      cases hs
  obtain ⟨hid', hpos'⟩ := applyOps_preserves t ops db ⟨hidnd, hidlt⟩ hpos0 hvalid
  obtain ⟨hpnd', hpb'⟩ := hpos'
  intro q
  constructor
  · rintro ⟨s, hs, hst, rfl⟩
    exact hpb' s (List.mem_filter.mpr ⟨hs, by simp [hst]⟩)
  · rintro ⟨hq0, hql⟩
    have hq : q ∈ (tripRows t (applyOps t db ops).trip_stops).map Stop.position := by
      refine mem_of_nodup_bounded _ hpnd' ?_ q hq0 ?_
      · intro x hx
        rw [List.mem_map] at hx
        obtain ⟨y, hy, rfl⟩ := hx
        rw [List.length_map]
        exact hpb' y hy
      · rw [List.length_map]
        exact hql
    rw [List.mem_map] at hq
    obtain ⟨y, hy, hyq⟩ := hq
    rw [tripRows, List.mem_filter] at hy
    exact ⟨y, hy.1, by simpa using hy.2, hyq⟩

/-- Witness for c1_positions_contiguous: append a waypoint, insert a second
waypoint at position 0, then delete the first stop; the surviving positions
are exactly 0..N-1. -/
theorem c1_positions_contiguous_witness :
    ((∃ s ∈ (applyOps 1 emptyDB
        [.insert (waypointBody 0 0), .insert (waypointBodyAt 0 5 5),
          .del 1]).trip_stops,
      s.trip_id = 1 ∧ s.position = 0) ↔
        (0 : Int) ≤ 0 ∧ (0 : Int) < ((tripRows 1 (applyOps 1 emptyDB
          [.insert (waypointBody 0 0), .insert (waypointBodyAt 0 5 5),
            .del 1]).trip_stops).length : Int)) ∧
    ((∃ s ∈ (applyOps 1 emptyDB
        [.insert (waypointBody 0 0), .insert (waypointBodyAt 0 5 5),
          .del 1]).trip_stops,
      s.trip_id = 1 ∧ s.position = 5) ↔
        (0 : Int) ≤ 5 ∧ (5 : Int) < ((tripRows 1 (applyOps 1 emptyDB
          [.insert (waypointBody 0 0), .insert (waypointBodyAt 0 5 5),
            .del 1]).trip_stops).length : Int)) :=
  ⟨c1_positions_contiguous 1 emptyDB _ (by decide) (by decide) rfl (by decide) 0,
   c1_positions_contiguous 1 emptyDB _ (by decide) (by decide) rfl (by decide) 5⟩

end GoogleTimeline
